import Mathlib

/-
Verification of the transaction-to-graph aggregation and bounding engine of
the blockchain transaction visualizer repository.

Embedding conventions:
- Python floats are modelled as exact rationals (ℚ).
- A networkx `DiGraph` is modelled as a pair of insertion-ordered association
  lists: one from address to node attributes, one from (from, to) pairs to
  edge attributes.  networkx dictionaries preserve insertion order, so node
  iteration, `predecessors` and `successors` all enumerate keys in the order
  the corresponding node/edge was first added; the association lists model
  exactly that.  (`subgraph(...).copy()` stores edges grouped by source node;
  here kept edges stay in creation order — the node set, edge set and all
  attribute values are identical.)
- `wei_to_eth` embeds `wei_to_eth` from `desktop_app.py`.  The module
  `utils/helpers.py`, from which `graph/graph_builder.py` imports its
  `wei_to_eth`, is not among the sources; it is modelled from the spec's
  Unit Converter contract (integer parse first, float fallback, 0.0 on
  failure, scale 10^18), which the in-repo desktop implementation realizes
  verbatim.  Python `int(...)`/`float(...)` string parsing is modelled for
  ASCII numeric literals (optional surrounding whitespace, sign, digit runs
  with single internal underscores, decimal point, exponent); the special
  float spellings inf/infinity/nan are outside the model.
-/

/-- A Python value that may reach `wei_to_eth`: `None`, a string, or an int
(`tx.get('value', 0)` defaults to the int `0` in `desktop_app.py`, and to the
string `"0"` in `graph_builder.py`). -/
inductive PyVal where
  | vnone : PyVal
  | vstr (s : String) : PyVal
  | vint (n : Int) : PyVal
  deriving DecidableEq

/-- Characters stripped by Python's `str.strip()` (ASCII whitespace). -/
def pyIsSpace (c : Char) : Bool :=
  c = ' ' || c = '\t' || c = '\n' || c = '\r' || c = '\x0b' || c = '\x0c'

/-- Strip leading and trailing whitespace. -/
def stripWS (cs : List Char) : List Char :=
  ((cs.dropWhile pyIsSpace).reverse.dropWhile pyIsSpace).reverse

/-- Tail of a digit run: digits with single internal underscores
(an underscore must be followed by a digit). -/
def digitTail : List Char → Bool
  | [] => true
  | '_' :: [] => false
  | '_' :: c :: rest => c.isDigit && digitTail rest
  | c :: rest => c.isDigit && digitTail rest

/-- A nonempty digit run: starts with a digit, single internal underscores. -/
def digitRun (cs : List Char) : Bool :=
  match cs with
  | [] => false
  | c :: rest => c.isDigit && digitTail rest

/-- Numeric value of a digit run, ignoring underscores. -/
def digitsToNat (cs : List Char) : Nat :=
  (cs.filter (fun c => c != '_')).foldl (fun a c => 10 * a + (c.toNat - '0'.toNat)) 0

/-- Number of digits of a run, ignoring underscores. -/
def numDigits (cs : List Char) : Nat :=
  (cs.filter (fun c => c != '_')).length

/-- Parse an unsigned digit run. -/
def parseUnsignedInt (cs : List Char) : Option Nat :=
  if digitRun cs then some (digitsToNat cs) else none

/-- Parse an optional sign followed by a digit run. -/
def parseSignedDigits (cs : List Char) : Option Int :=
  match cs with
  | '+' :: rest => (parseUnsignedInt rest).map (fun n => (n : Int))
  | '-' :: rest => (parseUnsignedInt rest).map (fun n => -(n : Int))
  | rest => (parseUnsignedInt rest).map (fun n => (n : Int))

/-- Python `int(s)` on a string: strip whitespace, optional sign, digit run. -/
def pyParseInt (s : String) : Option Int :=
  parseSignedDigits (stripWS s.data)

/-- Split a character list at the first `e`/`E` (exponent marker). -/
def splitExp : List Char → List Char × Option (List Char)
  | [] => ([], none)
  | c :: rest =>
      if c = 'e' || c = 'E' then ([], some rest)
      else
        let p := splitExp rest
        (c :: p.1, p.2)

/-- Split a character list at the first `.` (decimal point). -/
def splitDot : List Char → List Char × Option (List Char)
  | [] => ([], none)
  | c :: rest =>
      if c = '.' then ([], some rest)
      else
        let p := splitDot rest
        (c :: p.1, p.2)

/-- Value of an unsigned float mantissa: `digits`, `digits.`, `digits.digits`
or `.digits`. -/
def mantissaVal (cs : List Char) : Option ℚ :=
  match splitDot cs with
  | (ip, none) => if digitRun ip then some ((digitsToNat ip : ℚ)) else none
  | (ip, some fp) =>
      if (digitRun ip || ip.isEmpty) && (digitRun fp || fp.isEmpty)
          && !(ip.isEmpty && fp.isEmpty) then
        some ((digitsToNat ip : ℚ) + (digitsToNat fp : ℚ) / 10 ^ numDigits fp)
      else none

/-- Mantissa with optional sign. -/
def signedMantissa (cs : List Char) : Option ℚ :=
  match cs with
  | '+' :: rest => mantissaVal rest
  | '-' :: rest => (mantissaVal rest).map (fun q => -q)
  | rest => mantissaVal rest

/-- Scale a rational by `10 ^ e` for an integer exponent `e`. -/
def applyExp (q : ℚ) (e : Int) : ℚ :=
  if 0 ≤ e then q * 10 ^ e.toNat else q / 10 ^ (-e).toNat

/-- Python `float(s)` on a string (finite decimal literals). -/
def pyParseFloat (s : String) : Option ℚ :=
  match splitExp (stripWS s.data) with
  | (m, none) => signedMantissa m
  | (m, some e) =>
      match signedMantissa m, parseSignedDigits e with
      | some q, some ex => some (applyExp q ex)
      | _, _ => none

/-- Python `int(value)` for the value shapes in scope. -/
def pyIntOf : PyVal → Option Int
  | .vnone => none
  | .vint n => some n
  | .vstr s => pyParseInt s

/-- Python `float(value)` for the value shapes in scope. -/
def pyFloatOf : PyVal → Option ℚ
  | .vnone => none
  | .vint n => some ((n : ℚ))
  | .vstr s => pyParseFloat s

/-- Embeds `wei_to_eth` (`desktop_app.py`, lines 43-50): integer parse first,
float parse as fallback, `0.0` on total failure; result divided by `10^18`. -/
def wei_to_eth (value : PyVal) : ℚ :=
  match pyIntOf value with
  | some n => (n : ℚ) / 10 ^ 18
  | none =>
      match pyFloatOf value with
      | some q => q / 10 ^ 18
      | none => 0

/-- A directed graph as insertion-ordered association lists (networkx
`DiGraph` model), parametrized by node and edge attribute types. -/
structure GGraph (N E : Type) where
  nodes : List (String × N)
  edges : List ((String × String) × E)
  deriving DecidableEq

namespace GGraph

variable {N E : Type}

/-- networkx `G.has_node(a)`. -/
def hasNode (G : GGraph N E) (a : String) : Bool :=
  G.nodes.any (fun p => decide (p.1 = a))

/-- Attribute lookup `G.nodes[a]` (first entry with key `a`). -/
def lookupNode (G : GGraph N E) (a : String) : Option N :=
  (G.nodes.find? (fun p => decide (p.1 = a))).map Prod.snd

/-- networkx `G.add_node(a, ...)` for a fresh node (appends). -/
def addNode (G : GGraph N E) (a : String) (z : N) : GGraph N E :=
  { G with nodes := G.nodes ++ [(a, z)] }

/-- The `if not G.has_node(a): G.add_node(a, ...)` idiom. -/
def ensureNode (G : GGraph N E) (a : String) (z : N) : GGraph N E :=
  if hasNode G a then G else addNode G a z

/-- In-place node attribute mutation `G.nodes[a][...] = ...`. -/
def updateNode (G : GGraph N E) (a : String) (f : N → N) : GGraph N E :=
  { G with nodes := G.nodes.map (fun p => if p.1 = a then (p.1, f p.2) else p) }

/-- networkx `G.has_edge(u, v)`. -/
def hasEdge (G : GGraph N E) (k : String × String) : Bool :=
  G.edges.any (fun e => decide (e.1 = k))

/-- Attribute lookup `G[u][v]`. -/
def lookupEdge (G : GGraph N E) (k : String × String) : Option E :=
  (G.edges.find? (fun e => decide (e.1 = k))).map Prod.snd

/-- networkx `G.add_edge(u, v, ...)` for a fresh edge (appends). -/
def addEdge (G : GGraph N E) (k : String × String) (d : E) : GGraph N E :=
  { G with edges := G.edges ++ [(k, d)] }

/-- In-place edge attribute mutation `G[u][v][...] = ...`. -/
def updateEdge (G : GGraph N E) (k : String × String) (f : E → E) : GGraph N E :=
  { G with edges := G.edges.map (fun e => if e.1 = k then (e.1, f e.2) else e) }

/-- The empty directed graph `nx.DiGraph()`. -/
def empty : GGraph N E := ⟨[], []⟩

/-- Node keys in insertion order. -/
def nodeKeys (G : GGraph N E) : List String := G.nodes.map Prod.fst

/-- Edge keys in insertion order. -/
def edgeKeys (G : GGraph N E) : List (String × String) := G.edges.map Prod.fst

end GGraph

/-- A transaction record: `from`, `to` and `value` fields, each possibly
absent (`none`). -/
structure Tx where
  frm : Option String
  «to» : Option String
  value : Option String
  deriving DecidableEq

/-- Python truthiness test `not x` for an optional string: `None` and the
empty string are falsy. -/
def pyFalsy : Option String → Bool
  | none => true
  | some s => decide (s = "")

/-- The string content of an optional field (only used on truthy fields). -/
def getS (o : Option String) : String := o.getD ""

/-- A record passes the `if not frm or not to: continue` guard. -/
def validB (tx : Tx) : Bool := !(pyFalsy tx.frm || pyFalsy tx.«to»)

namespace graph_builder

/-- Node attributes of `graph/graph_builder.py`: `total_in`, `total_out`. -/
structure NodeData where
  total_in : ℚ
  total_out : ℚ
  deriving DecidableEq

/-- Edge attributes of `graph/graph_builder.py`: `total_value`. -/
structure EdgeData where
  total_value : ℚ
  deriving DecidableEq

/-- The aggregated graph of `graph/graph_builder.py`. -/
abbrev Graph := GGraph NodeData EdgeData

/-- `wei_to_eth(tx.get("value", "0"))`: the converted amount of a record. -/
def txAmt (tx : Tx) : ℚ :=
  wei_to_eth (match tx.value with | none => .vstr "0" | some s => .vstr s)

/-- One iteration of the aggregation loop (`graph_builder.py`, lines 8-30). -/
def step (G : Graph) (tx : Tx) : Graph :=
  if pyFalsy tx.frm || pyFalsy tx.«to» then G
  else
    let f := getS tx.frm
    let t := getS tx.«to»
    let amt := txAmt tx
    let G1 := GGraph.ensureNode G f ⟨0, 0⟩
    let G2 := GGraph.ensureNode G1 t ⟨0, 0⟩
    let G3 := GGraph.updateNode G2 f (fun d => { d with total_out := d.total_out + amt })
    let G4 := GGraph.updateNode G3 t (fun d => { d with total_in := d.total_in + amt })
    if GGraph.hasEdge G4 (f, t) then
      GGraph.updateEdge G4 (f, t) (fun e => { e with total_value := e.total_value + amt })
    else
      GGraph.addEdge G4 (f, t) ⟨amt⟩

/-- The aggregation pass of `build_graph_from_txlist` (lines 6-30), before
the size-bound trim. -/
def aggregate (txlist : List Tx) : Graph :=
  txlist.foldl step GGraph.empty

/-- networkx `list(G.predecessors(v))`: sources of edges into `v`, in the
order those edges were first added. -/
def predecessors (G : Graph) (v : String) : List String :=
  (G.edges.filter (fun e => decide (e.1.2 = v))).map (fun e => e.1.1)

/-- networkx `list(G.successors(v))`: targets of edges out of `v`, in the
order those edges were first added. -/
def successors (G : Graph) (v : String) : List String :=
  (G.edges.filter (fun e => decide (e.1.1 = v))).map (fun e => e.1.2)

/-- Python `s.lower()` (ASCII model). -/
def pyLower (s : String) : String := String.mk (s.data.map Char.toLower)

/-- Python slice `l[:k]` for an `int` bound `k` (negative bounds count from
the end, clamped at zero). -/
def pySliceTo {α : Type} (l : List α) (k : Int) : List α :=
  if 0 ≤ k then l.take k.toNat else l.take ((l.length : Int) + k).toNat

/-- networkx `G.subgraph(keep).copy()`: kept nodes in original order with
original attributes, and every edge whose two endpoints are both kept. -/
def subgraphCopy (G : Graph) (keep : List String) : Graph :=
  { nodes := G.nodes.filter (fun p => decide (p.1 ∈ keep)),
    edges := G.edges.filter (fun e => decide (e.1.1 ∈ keep) && decide (e.1.2 ∈ keep)) }

/-- The size-bound trim (`graph_builder.py`, lines 33-41). -/
def bound (G : Graph) (focus_addr : Option String) (max_nodes : Int) : Graph :=
  if max_nodes < (G.nodes.length : Int) ∧ pyFalsy focus_addr = false then
    let focus := pyLower (getS focus_addr)
    if GGraph.hasNode G focus then
      let neighbors := predecessors G focus ++ successors G focus
      let kept := pySliceTo neighbors (max_nodes - 1)
      subgraphCopy G (focus :: kept)
    else G
  else G

/-- `build_graph_from_txlist(txlist, focus_addr, max_nodes)` of
`graph/graph_builder.py`: aggregation followed by the size-bound trim. -/
def build_graph_from_txlist (txlist : List Tx) (focus_addr : Option String)
    (max_nodes : Int) : Graph :=
  bound (aggregate txlist) focus_addr max_nodes

end graph_builder

namespace desktop_app

/-- Node attributes of the desktop aggregator: totals plus counters. -/
structure NodeData where
  total_in : ℚ
  total_out : ℚ
  tx_in : ℕ
  tx_out : ℕ
  deriving DecidableEq

/-- Edge attributes of the desktop aggregator: `total_value`, `tx_count`. -/
structure EdgeData where
  total_value : ℚ
  tx_count : ℕ
  deriving DecidableEq

/-- The aggregated graph of `desktop_app.py`. -/
abbrev Graph := GGraph NodeData EdgeData

/-- `wei_to_eth(tx.get('value', 0))`: converted amount (default int `0`). -/
def txAmt (tx : Tx) : ℚ :=
  wei_to_eth (match tx.value with | none => .vint 0 | some s => .vstr s)

/-- One iteration of the desktop aggregation loop (`desktop_app.py`,
lines 74-97). -/
def step (min_value_eth : ℚ) (G : Graph) (tx : Tx) : Graph :=
  if pyFalsy tx.frm || pyFalsy tx.«to» then G
  else if txAmt tx < min_value_eth then G
  else
    let f := getS tx.frm
    let t := getS tx.«to»
    let v := txAmt tx
    let G1 := GGraph.ensureNode G f ⟨0, 0, 0, 0⟩
    let G2 := GGraph.ensureNode G1 t ⟨0, 0, 0, 0⟩
    let G3 := GGraph.updateNode G2 f (fun d => { d with total_out := d.total_out + v })
    let G4 := GGraph.updateNode G3 f (fun d => { d with tx_out := d.tx_out + 1 })
    let G5 := GGraph.updateNode G4 t (fun d => { d with total_in := d.total_in + v })
    let G6 := GGraph.updateNode G5 t (fun d => { d with tx_in := d.tx_in + 1 })
    if GGraph.hasEdge G6 (f, t) then
      GGraph.updateEdge (GGraph.updateEdge G6 (f, t)
          (fun e => { e with total_value := e.total_value + v })) (f, t)
        (fun e => { e with tx_count := e.tx_count + 1 })
    else
      GGraph.addEdge G6 (f, t) ⟨v, 1⟩

/-- `build_graph_from_txlist(txlist, min_value_eth)` of `desktop_app.py`. -/
def build_graph_from_txlist (txlist : List Tx) (min_value_eth : ℚ) : Graph :=
  txlist.foldl (step min_value_eth) GGraph.empty

end desktop_app

/-- Keep the first occurrence of each element, in order of first appearance. -/
def firstDedup {α : Type} [DecidableEq α] : List α → List α
  | [] => []
  | a :: l => a :: firstDedup (l.filter (fun b => decide (b ≠ a)))
termination_by l => l.length
decreasing_by
  simp only [List.length_cons]
  exact Nat.lt_succ_of_le (List.length_filter_le _ _)

namespace graph_builder

/-- Spec-side neighbor list: the predecessors of `v`, in the order of first
encounter among the valid records. -/
def specPreds (txlist : List Tx) (v : String) : List String :=
  firstDedup (((txlist.filter validB).filter
    (fun tx => decide (getS tx.«to» = v))).map (fun tx => getS tx.frm))

/-- Spec-side neighbor list: the successors of `v`, in the order of first
encounter among the valid records. -/
def specSuccs (txlist : List Tx) (v : String) : List String :=
  firstDedup (((txlist.filter validB).filter
    (fun tx => decide (getS tx.frm = v))).map (fun tx => getS tx.«to»))

/-- Spec-side keep set: the focus plus the first `max_nodes - 1` entries of
the stable neighbor list (predecessors first, then successors). -/
def specKeep (txlist : List Tx) (f : String) (max_nodes : Int) : List String :=
  pyLower f ::
    (specPreds txlist (pyLower f) ++ specSuccs txlist (pyLower f)).take (max_nodes - 1).toNat

/-- Induced subgraph per the spec's words: all kept nodes with original
attributes, all edges with both endpoints kept, original edge attributes. -/
def inducedSubgraph (G : Graph) (keep : List String) : Graph :=
  { nodes := G.nodes.filter (fun p => decide (p.1 ∈ keep)),
    edges := G.edges.filter (fun e => decide (e.1.1 ∈ keep) && decide (e.1.2 ∈ keep)) }

/-- Spec-side accumulated inflow of address `a`: the sum of the converted
amounts of the valid records receiving at `a`. -/
def totalIn (txlist : List Tx) (a : String) : ℚ :=
  ((txlist.filter (fun tx => validB tx && decide (getS tx.«to» = a))).map txAmt).sum

/-- Spec-side accumulated outflow of address `a`. -/
def totalOut (txlist : List Tx) (a : String) : ℚ :=
  ((txlist.filter (fun tx => validB tx && decide (getS tx.frm = a))).map txAmt).sum

/-- Address `a` appears in some valid record (as sender or receiver). -/
def appears (txlist : List Tx) (a : String) : Bool :=
  txlist.any (fun tx => validB tx && (decide (getS tx.frm = a) || decide (getS tx.«to» = a)))

/-- Spec-side accumulated total of the edge keyed `k`. -/
def edgeTotal (txlist : List Tx) (k : String × String) : ℚ :=
  ((txlist.filter (fun tx => validB tx && decide ((getS tx.frm, getS tx.«to») = k))).map txAmt).sum

/-- The ordered pair `k` is the (from, to) pair of some valid record. -/
def pairAppears (txlist : List Tx) (k : String × String) : Bool :=
  txlist.any (fun tx => validB tx && decide ((getS tx.frm, getS tx.«to») = k))

end graph_builder

/-! ### Association-list lemmas -/

theorem assoc_find?_map_update {κ A : Type} [DecidableEq κ] (l : List (κ × A)) (a b : κ)
    (f : A → A) :
    ((l.map (fun p => if p.1 = a then (p.1, f p.2) else p)).find?
        (fun p => decide (p.1 = b))).map Prod.snd
      = if b = a then ((l.find? (fun p => decide (p.1 = b))).map Prod.snd).map f
        else (l.find? (fun p => decide (p.1 = b))).map Prod.snd := by
  induction l with
  | nil => by_cases h : b = a <;> simp [h]
  | cons p l ih =>
    simp only [List.map_cons]
    by_cases hpb : p.1 = b
    · by_cases hpa : p.1 = a
      · have hba : b = a := hpb ▸ hpa
        rw [if_pos hpa, List.find?_cons_of_pos _ (by simp [hpb]),
          List.find?_cons_of_pos _ (by simp [hpb])]
        simp [hba]
      · have hba : ¬b = a := fun h => hpa (hpb.symm ▸ h)
        rw [if_neg hpa, List.find?_cons_of_pos _ (by simp [hpb]),
          List.find?_cons_of_pos _ (by simp [hpb])]
        simp [hba]
    · by_cases hpa : p.1 = a
      · rw [if_pos hpa, List.find?_cons_of_neg _ (by simp [hpb]),
          List.find?_cons_of_neg _ (by simp [hpb])]
        exact ih
      · rw [if_neg hpa, List.find?_cons_of_neg _ (by simp [hpb]),
          List.find?_cons_of_neg _ (by simp [hpb])]
        exact ih

theorem assoc_find?_append_single {κ A : Type} [DecidableEq κ] (l : List (κ × A)) (a b : κ)
    (z : A) :
    ((l ++ [(a, z)]).find? (fun p => decide (p.1 = b))).map Prod.snd
      = match (l.find? (fun p => decide (p.1 = b))).map Prod.snd with
        | some d => some d
        | none => if b = a then some z else none := by
  rw [List.find?_append]
  cases h : l.find? (fun p => decide (p.1 = b)) with
  | some d => simp [h, Option.or]
  | none =>
    by_cases hba : b = a
    · simp [h, Option.or, List.find?, hba]
    · have : ¬a = b := fun hh => hba hh.symm
      simp [h, Option.or, List.find?, this, hba]

/-! ### Graph operation lemmas -/

namespace GGraph

variable {N E : Type}

theorem edges_addNode (G : GGraph N E) (a : String) (z : N) :
    (addNode G a z).edges = G.edges := rfl

theorem edges_updateNode (G : GGraph N E) (a : String) (f : N → N) :
    (updateNode G a f).edges = G.edges := rfl

theorem edges_ensureNode (G : GGraph N E) (a : String) (z : N) :
    (ensureNode G a z).edges = G.edges := by
  unfold ensureNode; split <;> rfl

theorem nodes_addEdge (G : GGraph N E) (k : String × String) (d : E) :
    (addEdge G k d).nodes = G.nodes := rfl

theorem nodes_updateEdge (G : GGraph N E) (k : String × String) (f : E → E) :
    (updateEdge G k f).nodes = G.nodes := rfl

theorem lookupNode_updateNode (G : GGraph N E) (a b : String) (f : N → N) :
    lookupNode (updateNode G a f) b
      = if b = a then (lookupNode G b).map f else lookupNode G b := by
  unfold lookupNode updateNode
  exact assoc_find?_map_update G.nodes a b f

theorem lookupNode_addNode (G : GGraph N E) (a b : String) (z : N) :
    lookupNode (addNode G a z) b
      = match lookupNode G b with
        | some d => some d
        | none => if b = a then some z else none := by
  unfold lookupNode addNode
  exact assoc_find?_append_single G.nodes a b z

theorem hasNode_eq_isSome (G : GGraph N E) (a : String) :
    hasNode G a = (lookupNode G a).isSome := by
  unfold hasNode lookupNode
  rw [Bool.eq_iff_iff]
  simp [List.any_eq_true, List.find?_isSome]

theorem lookupNode_ensureNode (G : GGraph N E) (a b : String) (z : N) :
    lookupNode (ensureNode G a z) b
      = if b = a then some ((lookupNode G a).getD z) else lookupNode G b := by
  unfold ensureNode
  by_cases h : hasNode G a = true
  · rw [if_pos h]
    by_cases hba : b = a
    · subst hba
      rw [hasNode_eq_isSome] at h
      cases hl : lookupNode G b with
      | some d => simp [hl]
      | none => simp [hl] at h
    · simp [hba]
  · rw [if_neg h, lookupNode_addNode]
    rw [hasNode_eq_isSome] at h
    have hnone : lookupNode G a = none := by
      cases hl : lookupNode G a with
      | some d => simp [hl] at h
      | none => rfl
    by_cases hba : b = a
    · subst hba; simp [hnone]
    · cases hl : lookupNode G b with
      | some d => simp [hba]
      | none => simp [hba]

theorem lookupEdge_updateEdge (G : GGraph N E) (k k' : String × String) (f : E → E) :
    lookupEdge (updateEdge G k f) k'
      = if k' = k then (lookupEdge G k').map f else lookupEdge G k' := by
  unfold lookupEdge updateEdge
  exact assoc_find?_map_update G.edges k k' f

theorem lookupEdge_addEdge (G : GGraph N E) (k k' : String × String) (d : E) :
    lookupEdge (addEdge G k d) k'
      = match lookupEdge G k' with
        | some e => some e
        | none => if k' = k then some d else none := by
  unfold lookupEdge addEdge
  exact assoc_find?_append_single G.edges k k' d

theorem hasEdge_eq_isSome (G : GGraph N E) (k : String × String) :
    hasEdge G k = (lookupEdge G k).isSome := by
  unfold hasEdge lookupEdge
  rw [Bool.eq_iff_iff]
  simp [List.any_eq_true, List.find?_isSome]

theorem lookupEdge_addNode (G : GGraph N E) (a : String) (z : N) (k : String × String) :
    lookupEdge (addNode G a z) k = lookupEdge G k := rfl

theorem lookupEdge_updateNode (G : GGraph N E) (a : String) (f : N → N) (k : String × String) :
    lookupEdge (updateNode G a f) k = lookupEdge G k := rfl

theorem lookupEdge_ensureNode (G : GGraph N E) (a : String) (z : N) (k : String × String) :
    lookupEdge (ensureNode G a z) k = lookupEdge G k := by
  unfold ensureNode; split <;> rfl

theorem lookupNode_addEdge (G : GGraph N E) (k : String × String) (d : E) (a : String) :
    lookupNode (addEdge G k d) a = lookupNode G a := rfl

theorem lookupNode_updateEdge (G : GGraph N E) (k : String × String) (f : E → E) (a : String) :
    lookupNode (updateEdge G k f) a = lookupNode G a := rfl

theorem hasEdge_ensureNode (G : GGraph N E) (a : String) (z : N) (k : String × String) :
    hasEdge (ensureNode G a z) k = hasEdge G k := by
  rw [hasEdge_eq_isSome, hasEdge_eq_isSome, lookupEdge_ensureNode]

theorem hasEdge_updateNode (G : GGraph N E) (a : String) (f : N → N) (k : String × String) :
    hasEdge (updateNode G a f) k = hasEdge G k := rfl

theorem nodeKeys_updateNode (G : GGraph N E) (a : String) (f : N → N) :
    nodeKeys (updateNode G a f) = nodeKeys G := by
  unfold nodeKeys updateNode
  simp only [List.map_map]
  refine List.map_congr_left ?_
  intro p _
  by_cases h : p.1 = a <;> simp [h]

theorem nodeKeys_addNode (G : GGraph N E) (a : String) (z : N) :
    nodeKeys (addNode G a z) = nodeKeys G ++ [a] := by
  unfold nodeKeys addNode
  simp

theorem edgeKeys_updateEdge (G : GGraph N E) (k : String × String) (f : E → E) :
    edgeKeys (updateEdge G k f) = edgeKeys G := by
  unfold edgeKeys updateEdge
  simp only [List.map_map]
  refine List.map_congr_left ?_
  intro e _
  by_cases h : e.1 = k <;> simp [h]

theorem edgeKeys_addEdge (G : GGraph N E) (k : String × String) (d : E) :
    edgeKeys (addEdge G k d) = edgeKeys G ++ [k] := by
  unfold edgeKeys addEdge
  simp

theorem edgeKeys_addNode (G : GGraph N E) (a : String) (z : N) :
    edgeKeys (addNode G a z) = edgeKeys G := rfl

theorem edgeKeys_updateNode (G : GGraph N E) (a : String) (f : N → N) :
    edgeKeys (updateNode G a f) = edgeKeys G := rfl

theorem edgeKeys_ensureNode (G : GGraph N E) (a : String) (z : N) :
    edgeKeys (ensureNode G a z) = edgeKeys G := by
  unfold ensureNode; split <;> rfl

theorem nodeKeys_addEdge (G : GGraph N E) (k : String × String) (d : E) :
    nodeKeys (addEdge G k d) = nodeKeys G := rfl

theorem nodeKeys_updateEdge (G : GGraph N E) (k : String × String) (f : E → E) :
    nodeKeys (updateEdge G k f) = nodeKeys G := rfl

theorem mem_nodeKeys_iff_isSome (G : GGraph N E) (a : String) :
    a ∈ nodeKeys G ↔ (lookupNode G a).isSome := by
  unfold nodeKeys lookupNode
  simp [List.find?_isSome, List.mem_map]

theorem mem_edgeKeys_iff_isSome (G : GGraph N E) (k : String × String) :
    k ∈ edgeKeys G ↔ (lookupEdge G k).isSome := by
  unfold edgeKeys lookupEdge
  simp [List.find?_isSome, List.mem_map]

theorem hasEdge_eq_mem_edgeKeys (G : GGraph N E) (k : String × String) :
    hasEdge G k = decide (k ∈ edgeKeys G) := by
  rw [hasEdge_eq_isSome, Bool.eq_iff_iff]
  simp [mem_edgeKeys_iff_isSome]

end GGraph

/-! ### Aggregation-step lemmas for graph_builder -/

namespace graph_builder

theorem validB_eq_false_iff (tx : Tx) :
    validB tx = false ↔ (pyFalsy tx.frm || pyFalsy tx.«to») = true := by
  unfold validB
  cases pyFalsy tx.frm <;> cases pyFalsy tx.«to» <;> simp

theorem step_invalid (G : Graph) (tx : Tx) (h : validB tx = false) : step G tx = G := by
  unfold step
  rw [if_pos ((validB_eq_false_iff tx).mp h)]

theorem lookupNode_step_valid (G : Graph) (tx : Tx) (h : validB tx = true) (b : String) :
    GGraph.lookupNode (step G tx) b
      = if b = getS tx.frm ∨ b = getS tx.«to» then
          some { total_in := ((GGraph.lookupNode G b).getD ⟨0, 0⟩).total_in
                    + (if b = getS tx.«to» then txAmt tx else 0),
                 total_out := ((GGraph.lookupNode G b).getD ⟨0, 0⟩).total_out
                    + (if b = getS tx.frm then txAmt tx else 0) }
        else GGraph.lookupNode G b := by
  have hcond : (pyFalsy tx.frm || pyFalsy tx.«to») = false := by
    unfold validB at h; simpa using h
  unfold step
  rw [if_neg (by simp [hcond])]
  dsimp only
  by_cases hft : getS tx.«to» = getS tx.frm
  · by_cases hbf : b = getS tx.frm
    · have hbt : b = getS tx.«to» := by rw [hft]; exact hbf
      split <;>
        simp [GGraph.lookupEdge_updateEdge, GGraph.lookupNode_updateEdge,
          GGraph.lookupNode_addEdge, GGraph.lookupNode_updateNode,
          GGraph.lookupNode_ensureNode, hbf, hbt, hft]
    · have hbt : ¬b = getS tx.«to» := by rw [hft]; exact hbf
      split <;>
        simp [GGraph.lookupEdge_updateEdge, GGraph.lookupNode_updateEdge,
          GGraph.lookupNode_addEdge, GGraph.lookupNode_updateNode,
          GGraph.lookupNode_ensureNode, hbf, hbt, hft]
  · have hft2 : ¬getS tx.frm = getS tx.«to» := fun hh => hft hh.symm
    by_cases hbf : b = getS tx.frm
    · have hbt : ¬b = getS tx.«to» := fun hh => hft ((hh.symm.trans hbf))
      split <;>
        simp [GGraph.lookupEdge_updateEdge, GGraph.lookupNode_updateEdge,
          GGraph.lookupNode_addEdge, GGraph.lookupNode_updateNode,
          GGraph.lookupNode_ensureNode, hbf, hbt, hft, hft2]
    · by_cases hbt : b = getS tx.«to»
      · split <;>
          simp [GGraph.lookupEdge_updateEdge, GGraph.lookupNode_updateEdge,
            GGraph.lookupNode_addEdge, GGraph.lookupNode_updateNode,
            GGraph.lookupNode_ensureNode, hbf, hbt, hft, hft2]
      · split <;>
          simp [GGraph.lookupEdge_updateEdge, GGraph.lookupNode_updateEdge,
            GGraph.lookupNode_addEdge, GGraph.lookupNode_updateNode,
            GGraph.lookupNode_ensureNode, hbf, hbt, hft, hft2]

theorem lookupEdge_step_valid (G : Graph) (tx : Tx) (h : validB tx = true) (k : String × String) :
    GGraph.lookupEdge (step G tx) k
      = if k = (getS tx.frm, getS tx.«to») then
          some ⟨((GGraph.lookupEdge G k).getD ⟨0⟩).total_value + txAmt tx⟩
        else GGraph.lookupEdge G k := by
  have hcond : (pyFalsy tx.frm || pyFalsy tx.«to») = false := by
    unfold validB at h; simpa using h
  unfold step
  rw [if_neg (by simp [hcond])]
  dsimp only
  have hE4 : ∀ k', GGraph.lookupEdge
      (GGraph.updateNode
        (GGraph.updateNode
          (GGraph.ensureNode (GGraph.ensureNode G (getS tx.frm) ⟨0, 0⟩) (getS tx.«to») ⟨0, 0⟩)
          (getS tx.frm) (fun d => { d with total_out := d.total_out + txAmt tx }))
        (getS tx.«to») (fun d => { d with total_in := d.total_in + txAmt tx })) k'
      = GGraph.lookupEdge G k' := by
    intro k'
    rw [GGraph.lookupEdge_updateNode, GGraph.lookupEdge_updateNode,
      GGraph.lookupEdge_ensureNode, GGraph.lookupEdge_ensureNode]
  have hH : GGraph.hasEdge
      (GGraph.updateNode
        (GGraph.updateNode
          (GGraph.ensureNode (GGraph.ensureNode G (getS tx.frm) ⟨0, 0⟩) (getS tx.«to») ⟨0, 0⟩)
          (getS tx.frm) (fun d => { d with total_out := d.total_out + txAmt tx }))
        (getS tx.«to») (fun d => { d with total_in := d.total_in + txAmt tx }))
        (getS tx.frm, getS tx.«to»)
      = GGraph.hasEdge G (getS tx.frm, getS tx.«to») := by
    rw [GGraph.hasEdge_eq_isSome, GGraph.hasEdge_eq_isSome, hE4]
  rw [hH]
  by_cases he : GGraph.hasEdge G (getS tx.frm, getS tx.«to») = true
  · rw [if_pos he, GGraph.lookupEdge_updateEdge, hE4]
    by_cases hk : k = (getS tx.frm, getS tx.«to»)
    · subst hk
      rw [GGraph.hasEdge_eq_isSome] at he
      cases hl : GGraph.lookupEdge G (getS tx.frm, getS tx.«to») with
      | some e => simp [hl]
      | none => rw [hl] at he; simp at he
    · rw [if_neg hk, if_neg hk]
  · rw [if_neg he, GGraph.lookupEdge_addEdge, hE4]
    rw [GGraph.hasEdge_eq_isSome] at he
    by_cases hk : k = (getS tx.frm, getS tx.«to»)
    · subst hk
      cases hl : GGraph.lookupEdge G (getS tx.frm, getS tx.«to») with
      | some e => rw [hl] at he; simp at he
      | none => simp [hl]
    · cases hl : GGraph.lookupEdge G k with
      | some e => simp [hl, hk]
      | none => simp [hl, hk]

end graph_builder

/-! ### Spec-side accumulation sums -/

namespace graph_builder

theorem totalIn_nil (a : String) : totalIn [] a = 0 := rfl

theorem totalOut_nil (a : String) : totalOut [] a = 0 := rfl

theorem appears_nil (a : String) : appears [] a = false := rfl

theorem totalIn_cons_valid {tx : Tx} (hv : validB tx = true) (l : List Tx) (a : String) :
    totalIn (tx :: l) a
      = (if a = getS tx.«to» then txAmt tx else 0) + totalIn l a := by
  unfold totalIn
  by_cases h : a = getS tx.«to»
  · have hc : (validB tx && decide (getS tx.«to» = a)) = true := by
      rw [hv, Bool.true_and]; exact decide_eq_true h.symm
    simp [List.filter_cons, hc, h, hv]
  · have hc : (validB tx && decide (getS tx.«to» = a)) = false := by
      rw [hv, Bool.true_and]; exact decide_eq_false (fun hh => h hh.symm)
    simp [List.filter_cons, hc, h]

theorem totalIn_cons_invalid {tx : Tx} (hv : validB tx = false) (l : List Tx) (a : String) :
    totalIn (tx :: l) a = totalIn l a := by
  unfold totalIn
  simp [List.filter_cons, hv]

theorem totalOut_cons_valid {tx : Tx} (hv : validB tx = true) (l : List Tx) (a : String) :
    totalOut (tx :: l) a
      = (if a = getS tx.frm then txAmt tx else 0) + totalOut l a := by
  unfold totalOut
  by_cases h : a = getS tx.frm
  · have hc : (validB tx && decide (getS tx.frm = a)) = true := by
      rw [hv, Bool.true_and]; exact decide_eq_true h.symm
    simp [List.filter_cons, hc, h, hv]
  · have hc : (validB tx && decide (getS tx.frm = a)) = false := by
      rw [hv, Bool.true_and]; exact decide_eq_false (fun hh => h hh.symm)
    simp [List.filter_cons, hc, h]

theorem totalOut_cons_invalid {tx : Tx} (hv : validB tx = false) (l : List Tx) (a : String) :
    totalOut (tx :: l) a = totalOut l a := by
  unfold totalOut
  simp [List.filter_cons, hv]

theorem appears_cons_valid {tx : Tx} (hv : validB tx = true) (l : List Tx) (a : String) :
    appears (tx :: l) a
      = ((decide (a = getS tx.frm) || decide (a = getS tx.«to»)) || appears l a) := by
  unfold appears
  rw [List.any_cons, hv, Bool.true_and]
  congr 1
  congr 1 <;> rw [Bool.eq_iff_iff] <;> simp [eq_comm]

theorem appears_cons_invalid {tx : Tx} (hv : validB tx = false) (l : List Tx) (a : String) :
    appears (tx :: l) a = appears l a := by
  unfold appears
  rw [List.any_cons, hv, Bool.false_and, Bool.false_or]

theorem edgeTotal_nil (k : String × String) : edgeTotal [] k = 0 := rfl

theorem pairAppears_nil (k : String × String) : pairAppears [] k = false := rfl

theorem edgeTotal_cons_valid {tx : Tx} (hv : validB tx = true) (l : List Tx)
    (k : String × String) :
    edgeTotal (tx :: l) k
      = (if k = (getS tx.frm, getS tx.«to») then txAmt tx else 0) + edgeTotal l k := by
  unfold edgeTotal
  by_cases h : k = (getS tx.frm, getS tx.«to»)
  · have hc : (validB tx && decide ((getS tx.frm, getS tx.«to») = k)) = true := by
      rw [hv, Bool.true_and]; exact decide_eq_true h.symm
    simp [List.filter_cons, hc, h, hv]
  · have hc : (validB tx && decide ((getS tx.frm, getS tx.«to») = k)) = false := by
      rw [hv, Bool.true_and]; exact decide_eq_false (fun hh => h hh.symm)
    simp [List.filter_cons, hc, h]

theorem edgeTotal_cons_invalid {tx : Tx} (hv : validB tx = false) (l : List Tx)
    (k : String × String) :
    edgeTotal (tx :: l) k = edgeTotal l k := by
  unfold edgeTotal
  simp [List.filter_cons, hv]

theorem pairAppears_cons_valid {tx : Tx} (hv : validB tx = true) (l : List Tx)
    (k : String × String) :
    pairAppears (tx :: l) k
      = (decide (k = (getS tx.frm, getS tx.«to»)) || pairAppears l k) := by
  unfold pairAppears
  rw [List.any_cons, hv, Bool.true_and]
  congr 1
  rw [Bool.eq_iff_iff]; simp [eq_comm]

theorem pairAppears_cons_invalid {tx : Tx} (hv : validB tx = false) (l : List Tx)
    (k : String × String) :
    pairAppears (tx :: l) k = pairAppears l k := by
  unfold pairAppears
  rw [List.any_cons, hv, Bool.false_and, Bool.false_or]

/-! ### Fold characterization of the aggregation -/

theorem lookupNode_foldl (l : List Tx) : ∀ (G : Graph) (a : String),
    GGraph.lookupNode (l.foldl step G) a
      = match GGraph.lookupNode G a with
        | some d => some ⟨d.total_in + totalIn l a, d.total_out + totalOut l a⟩
        | none => if appears l a then some ⟨totalIn l a, totalOut l a⟩ else none := by
  induction l with
  | nil =>
    intro G a
    rw [List.foldl_nil]
    cases h : GGraph.lookupNode G a with
    | some d => cases d; simp [totalIn_nil, totalOut_nil]
    | none => simp [appears_nil]
  | cons tx l ih =>
    intro G a
    rw [List.foldl_cons, ih (step G tx) a]
    by_cases hv : validB tx = true
    · rw [lookupNode_step_valid G tx hv a]
      by_cases hmem : a = getS tx.frm ∨ a = getS tx.«to»
      · rw [if_pos hmem]
        cases hGa : GGraph.lookupNode G a with
        | some d =>
          simp only [hGa, Option.getD_some]
          rw [totalIn_cons_valid hv, totalOut_cons_valid hv, add_assoc, add_assoc]
        | none =>
          simp only [hGa, Option.getD_none]
          rw [appears_cons_valid hv]
          have hhead : (decide (a = getS tx.frm) || decide (a = getS tx.«to»)) = true := by
            rcases hmem with hh | hh <;> simp [hh]
          rw [hhead, Bool.true_or, if_pos rfl]
          rw [totalIn_cons_valid hv, totalOut_cons_valid hv]
          simp
      · rw [if_neg hmem]
        push_neg at hmem
        obtain ⟨h1, h2⟩ := hmem
        rw [totalIn_cons_valid hv, totalOut_cons_valid hv, appears_cons_valid hv]
        simp [h1, h2]
    · have hv2 : validB tx = false := by revert hv; cases validB tx <;> simp
      rw [step_invalid G tx hv2, totalIn_cons_invalid hv2, totalOut_cons_invalid hv2,
        appears_cons_invalid hv2]

theorem lookupEdge_foldl (l : List Tx) : ∀ (G : Graph) (k : String × String),
    GGraph.lookupEdge (l.foldl step G) k
      = match GGraph.lookupEdge G k with
        | some e => some ⟨e.total_value + edgeTotal l k⟩
        | none => if pairAppears l k then some ⟨edgeTotal l k⟩ else none := by
  induction l with
  | nil =>
    intro G k
    rw [List.foldl_nil]
    cases h : GGraph.lookupEdge G k with
    | some e => cases e; simp [edgeTotal_nil]
    | none => simp [pairAppears_nil]
  | cons tx l ih =>
    intro G k
    rw [List.foldl_cons, ih (step G tx) k]
    by_cases hv : validB tx = true
    · rw [lookupEdge_step_valid G tx hv k]
      by_cases hk : k = (getS tx.frm, getS tx.«to»)
      · rw [if_pos hk]
        cases hGk : GGraph.lookupEdge G k with
        | some e =>
          simp only [hGk, Option.getD_some]
          rw [edgeTotal_cons_valid hv, add_assoc, if_pos hk]
        | none =>
          simp only [hGk, Option.getD_none]
          rw [pairAppears_cons_valid hv, decide_eq_true hk, Bool.true_or, if_pos rfl]
          rw [edgeTotal_cons_valid hv]
          simp [hk]
      · rw [if_neg hk]
        rw [edgeTotal_cons_valid hv, pairAppears_cons_valid hv]
        simp [hk]
    · have hv2 : validB tx = false := by revert hv; cases validB tx <;> simp
      rw [step_invalid G tx hv2, edgeTotal_cons_invalid hv2, pairAppears_cons_invalid hv2]

theorem lookupNode_aggregate (l : List Tx) (a : String) :
    GGraph.lookupNode (aggregate l) a
      = if appears l a then some ⟨totalIn l a, totalOut l a⟩ else none := by
  unfold aggregate
  rw [lookupNode_foldl]
  rfl

theorem lookupEdge_aggregate (l : List Tx) (k : String × String) :
    GGraph.lookupEdge (aggregate l) k
      = if pairAppears l k then some ⟨edgeTotal l k⟩ else none := by
  unfold aggregate
  rw [lookupEdge_foldl]
  rfl

end graph_builder

/-! ### Permutation invariance of the accumulation sums -/

namespace graph_builder

theorem totalIn_perm {l1 l2 : List Tx} (h : l1.Perm l2) (a : String) :
    totalIn l1 a = totalIn l2 a :=
  List.Perm.sum_eq ((h.filter _).map _)

theorem totalOut_perm {l1 l2 : List Tx} (h : l1.Perm l2) (a : String) :
    totalOut l1 a = totalOut l2 a :=
  List.Perm.sum_eq ((h.filter _).map _)

theorem edgeTotal_perm {l1 l2 : List Tx} (h : l1.Perm l2) (k : String × String) :
    edgeTotal l1 k = edgeTotal l2 k :=
  List.Perm.sum_eq ((h.filter _).map _)

theorem appears_perm {l1 l2 : List Tx} (h : l1.Perm l2) (a : String) :
    appears l1 a = appears l2 a := by
  rw [Bool.eq_iff_iff]
  unfold appears
  simp only [List.any_eq_true]
  constructor
  · rintro ⟨tx, htx, hp⟩
    exact ⟨tx, h.mem_iff.mp htx, hp⟩
  · rintro ⟨tx, htx, hp⟩
    exact ⟨tx, h.mem_iff.mpr htx, hp⟩

theorem pairAppears_perm {l1 l2 : List Tx} (h : l1.Perm l2) (k : String × String) :
    pairAppears l1 k = pairAppears l2 k := by
  rw [Bool.eq_iff_iff]
  unfold pairAppears
  simp only [List.any_eq_true]
  constructor
  · rintro ⟨tx, htx, hp⟩
    exact ⟨tx, h.mem_iff.mp htx, hp⟩
  · rintro ⟨tx, htx, hp⟩
    exact ⟨tx, h.mem_iff.mpr htx, hp⟩

theorem hasNode_aggregate (l : List Tx) (a : String) :
    GGraph.hasNode (aggregate l) a = appears l a := by
  rw [GGraph.hasNode_eq_isSome, lookupNode_aggregate]
  cases h : appears l a <;> simp [h]

theorem hasEdge_aggregate (l : List Tx) (k : String × String) :
    GGraph.hasEdge (aggregate l) k = pairAppears l k := by
  rw [GGraph.hasEdge_eq_isSome, lookupEdge_aggregate]
  cases h : pairAppears l k <;> simp [h]

/-! ### Key lists of the aggregated graph have no duplicates -/

theorem nodeKeys_ensureNode_nodup {G : Graph} (hnd : (GGraph.nodeKeys G).Nodup)
    (a : String) (z : NodeData) : (GGraph.nodeKeys (GGraph.ensureNode G a z)).Nodup := by
  unfold GGraph.ensureNode
  by_cases h : GGraph.hasNode G a = true
  · rw [if_pos h]; exact hnd
  · rw [if_neg h, GGraph.nodeKeys_addNode]
    have ha : a ∉ GGraph.nodeKeys G := by
      rw [GGraph.hasNode_eq_isSome] at h
      rw [GGraph.mem_nodeKeys_iff_isSome]
      exact fun hh => h hh
    simp [List.nodup_append, hnd, ha]

theorem nodeKeys_step_nodup {G : Graph} (hnd : (GGraph.nodeKeys G).Nodup) (tx : Tx) :
    (GGraph.nodeKeys (step G tx)).Nodup := by
  unfold step
  by_cases hf : (pyFalsy tx.frm || pyFalsy tx.«to») = true
  · rw [if_pos hf]; exact hnd
  · rw [if_neg hf]
    dsimp only
    split <;>
      simp only [GGraph.nodeKeys_updateEdge, GGraph.nodeKeys_addEdge,
        GGraph.nodeKeys_updateNode] <;>
      exact nodeKeys_ensureNode_nodup (nodeKeys_ensureNode_nodup hnd _ _) _ _

theorem nodeKeys_aggregate_nodup (l : List Tx) :
    (GGraph.nodeKeys (aggregate l)).Nodup := by
  unfold aggregate
  have main : ∀ (G : Graph), (GGraph.nodeKeys G).Nodup →
      (GGraph.nodeKeys (l.foldl step G)).Nodup := by
    induction l with
    | nil => intro G h; exact h
    | cons tx l ih =>
      intro G h
      rw [List.foldl_cons]
      exact ih _ (nodeKeys_step_nodup h tx)
  exact main GGraph.empty (by simp [GGraph.nodeKeys, GGraph.empty])

theorem edgeKeys_step_nodup {G : Graph} (hnd : (GGraph.edgeKeys G).Nodup) (tx : Tx) :
    (GGraph.edgeKeys (step G tx)).Nodup := by
  unfold step
  by_cases hf : (pyFalsy tx.frm || pyFalsy tx.«to») = true
  · rw [if_pos hf]; exact hnd
  · rw [if_neg hf]
    dsimp only
    have hkeys : GGraph.edgeKeys
        (GGraph.updateNode
          (GGraph.updateNode
            (GGraph.ensureNode (GGraph.ensureNode G (getS tx.frm) ⟨0, 0⟩) (getS tx.«to») ⟨0, 0⟩)
            (getS tx.frm) (fun d => { d with total_out := d.total_out + txAmt tx }))
          (getS tx.«to») (fun d => { d with total_in := d.total_in + txAmt tx }))
        = GGraph.edgeKeys G := by
      rw [GGraph.edgeKeys_updateNode, GGraph.edgeKeys_updateNode,
        GGraph.edgeKeys_ensureNode, GGraph.edgeKeys_ensureNode]
    split
    · rw [GGraph.edgeKeys_updateEdge, hkeys]; exact hnd
    · next hne =>
      rw [GGraph.edgeKeys_addEdge, hkeys]
      have hk : (getS tx.frm, getS tx.«to») ∉ GGraph.edgeKeys G := by
        rw [GGraph.hasEdge_eq_isSome] at hne
        rw [GGraph.mem_edgeKeys_iff_isSome]
        intro hh
        apply hne
        have : GGraph.lookupEdge
            (GGraph.updateNode
              (GGraph.updateNode
                (GGraph.ensureNode (GGraph.ensureNode G (getS tx.frm) ⟨0, 0⟩) (getS tx.«to») ⟨0, 0⟩)
                (getS tx.frm) (fun d => { d with total_out := d.total_out + txAmt tx }))
              (getS tx.«to») (fun d => { d with total_in := d.total_in + txAmt tx }))
            (getS tx.frm, getS tx.«to») = GGraph.lookupEdge G (getS tx.frm, getS tx.«to») := by
          rw [GGraph.lookupEdge_updateNode, GGraph.lookupEdge_updateNode,
            GGraph.lookupEdge_ensureNode, GGraph.lookupEdge_ensureNode]
        rw [this]
        exact hh
      simp [List.nodup_append, hnd, hk]

theorem edgeKeys_aggregate_nodup (l : List Tx) :
    (GGraph.edgeKeys (aggregate l)).Nodup := by
  unfold aggregate
  have main : ∀ (G : Graph), (GGraph.edgeKeys G).Nodup →
      (GGraph.edgeKeys (l.foldl step G)).Nodup := by
    induction l with
    | nil => intro G h; exact h
    | cons tx l ih =>
      intro G h
      rw [List.foldl_cons]
      exact ih _ (edgeKeys_step_nodup h tx)
  exact main GGraph.empty (by simp [GGraph.edgeKeys, GGraph.empty])

end graph_builder

/-! ### Identity cases of the size-bound trim -/

theorem bound_eq_self_of (G : graph_builder.Graph) (fo : Option String) (m : Int)
    (h : (G.nodes.length : Int) ≤ m ∨ pyFalsy fo = true
        ∨ GGraph.hasNode G (graph_builder.pyLower (getS fo)) = false) :
    graph_builder.bound G fo m = G := by
  unfold graph_builder.bound
  rcases h with h | h | h
  · rw [if_neg (fun hc => absurd hc.1 (not_lt.mpr h))]
  · rw [if_neg (fun hc => by simp [h] at hc)]
  · by_cases hc : (m < (G.nodes.length : Int) ∧ pyFalsy fo = false)
    · rw [if_pos hc]
      dsimp only
      rw [if_neg (by simp [h])]
    · rw [if_neg hc]

/-- Claim C2: for every aggregated graph `G`, focus `f` and node budget `m`, if
`G` has at most `m` nodes, or the focus is null/absent (falsy), or the focus —
as looked up by the trim, i.e. its lowercased form (see C10) — is not a node of
`G`, then the size-bound trim returns `G` unchanged: the identical graph, hence
identical node set, edge set and attribute values.  Contrapositively, trimming
activates only when all three conditions hold. -/
theorem bound_identity_when_not_activated (G : graph_builder.Graph) (fo : Option String)
    (m : Int)
    (h : (G.nodes.length : Int) ≤ m ∨ pyFalsy fo = true
        ∨ GGraph.hasNode G (graph_builder.pyLower (getS fo)) = false) :
    graph_builder.bound G fo m = G :=
  bound_eq_self_of G fo m h

theorem bound_identity_when_not_activated_witness :
    graph_builder.bound (graph_builder.aggregate [⟨some "a", some "b", some "1"⟩])
        (some "zz") 300
      = graph_builder.aggregate [⟨some "a", some "b", some "1"⟩] :=
  bound_identity_when_not_activated _ (some "zz") 300 (Or.inl (by decide))

/-- Claim C4: for every list of transaction records and every permutation of it,
aggregation yields identical results: every address looks up to the same node
attributes (`total_in`, `total_out`), every ordered pair looks up to the same
edge attributes (`total_value`), and the node-key and edge-key lists are
permutations of each other (identical node and edge sets). -/
theorem aggregate_perm_invariant (l1 l2 : List Tx) (h : l1.Perm l2) :
    (∀ a, GGraph.lookupNode (graph_builder.aggregate l1) a
        = GGraph.lookupNode (graph_builder.aggregate l2) a)
    ∧ (∀ k, GGraph.lookupEdge (graph_builder.aggregate l1) k
        = GGraph.lookupEdge (graph_builder.aggregate l2) k)
    ∧ (GGraph.nodeKeys (graph_builder.aggregate l1)).Perm
        (GGraph.nodeKeys (graph_builder.aggregate l2))
    ∧ (GGraph.edgeKeys (graph_builder.aggregate l1)).Perm
        (GGraph.edgeKeys (graph_builder.aggregate l2)) := by
  have hnode : ∀ a, GGraph.lookupNode (graph_builder.aggregate l1) a
      = GGraph.lookupNode (graph_builder.aggregate l2) a := by
    intro a
    rw [graph_builder.lookupNode_aggregate, graph_builder.lookupNode_aggregate,
      graph_builder.appears_perm h, graph_builder.totalIn_perm h,
      graph_builder.totalOut_perm h]
  have hedge : ∀ k, GGraph.lookupEdge (graph_builder.aggregate l1) k
      = GGraph.lookupEdge (graph_builder.aggregate l2) k := by
    intro k
    rw [graph_builder.lookupEdge_aggregate, graph_builder.lookupEdge_aggregate,
      graph_builder.pairAppears_perm h, graph_builder.edgeTotal_perm h]
  refine ⟨hnode, hedge, ?_, ?_⟩
  · refine (List.subperm_of_subset (graph_builder.nodeKeys_aggregate_nodup l1) ?_).antisymm
      (List.subperm_of_subset (graph_builder.nodeKeys_aggregate_nodup l2) ?_)
    · intro x hx
      rw [GGraph.mem_nodeKeys_iff_isSome] at hx ⊢
      rw [← hnode x]; exact hx
    · intro x hx
      rw [GGraph.mem_nodeKeys_iff_isSome] at hx ⊢
      rw [hnode x]; exact hx
  · refine (List.subperm_of_subset (graph_builder.edgeKeys_aggregate_nodup l1) ?_).antisymm
      (List.subperm_of_subset (graph_builder.edgeKeys_aggregate_nodup l2) ?_)
    · intro x hx
      rw [GGraph.mem_edgeKeys_iff_isSome] at hx ⊢
      rw [← hedge x]; exact hx
    · intro x hx
      rw [GGraph.mem_edgeKeys_iff_isSome] at hx ⊢
      rw [hedge x]; exact hx

theorem aggregate_perm_invariant_witness :
    GGraph.lookupNode (graph_builder.aggregate
        [⟨some "A", some "B", some "5"⟩, ⟨some "B", some "C", some "3"⟩]) "B"
      = GGraph.lookupNode (graph_builder.aggregate
        [⟨some "B", some "C", some "3"⟩, ⟨some "A", some "B", some "5"⟩]) "B" :=
  (aggregate_perm_invariant _ _
    (List.Perm.swap ⟨some "B", some "C", some "3"⟩ ⟨some "A", some "B", some "5"⟩ [])).1 "B"

/-- Claim C5: the unit converter is a total function into the (exact-rational
model of) floats: it returns 0 on total parse failure (null, empty string or
non-numeric string), attempts the integer parse first, falls back to the
floating-point parse only when the integer parse fails, and divides the parsed
value by 10^18; in particular convert(null) = 0, convert("abc") = 0 and
convert("1000000000000000000") = 1. -/
theorem wei_to_eth_contract :
    wei_to_eth PyVal.vnone = 0
    ∧ wei_to_eth (PyVal.vstr "abc") = 0
    ∧ wei_to_eth (PyVal.vstr "") = 0
    ∧ wei_to_eth (PyVal.vstr "1000000000000000000") = 1
    ∧ (∀ v n, pyIntOf v = some n → wei_to_eth v = (n : ℚ) / 10 ^ 18)
    ∧ (∀ v q, pyIntOf v = none → pyFloatOf v = some q → wei_to_eth v = q / 10 ^ 18)
    ∧ (∀ v, pyIntOf v = none → pyFloatOf v = none → wei_to_eth v = 0) := by
  refine ⟨by decide, by decide, by decide, ?_, ?_, ?_, ?_⟩
  · have h : pyIntOf (PyVal.vstr "1000000000000000000") = some 1000000000000000000 := by
      decide
    unfold wei_to_eth
    rw [h]
    norm_num
  · intro v n h
    unfold wei_to_eth
    rw [h]
  · intro v q h h'
    unfold wei_to_eth
    rw [h, h']
  · intro v h h'
    unfold wei_to_eth
    rw [h, h']

theorem wei_to_eth_contract_witness :
    wei_to_eth (PyVal.vstr "12") = (12 : ℚ) / 10 ^ 18 :=
  wei_to_eth_contract.2.2.2.2.1 (PyVal.vstr "12") 12 (by decide)

/-- Claim C6: a record whose `from` or `to` field is absent or empty is skipped
entirely by the aggregation: no node or edge is created, no total changes, and
the resulting graph (including the subsequent size-bound trim) equals the one
built from the same sequence with that record removed. -/
theorem skip_record_missing_endpoint (l1 l2 : List Tx) (tx : Tx) (fo : Option String)
    (m : Int) (h : pyFalsy tx.frm = true ∨ pyFalsy tx.«to» = true) :
    graph_builder.build_graph_from_txlist (l1 ++ tx :: l2) fo m
      = graph_builder.build_graph_from_txlist (l1 ++ l2) fo m := by
  have hv : validB tx = false := by
    unfold validB; rcases h with h | h <;> simp [h]
  unfold graph_builder.build_graph_from_txlist
  congr 1
  unfold graph_builder.aggregate
  rw [List.foldl_append, List.foldl_append, List.foldl_cons,
    graph_builder.step_invalid _ _ hv]

theorem skip_record_missing_endpoint_witness :
    graph_builder.build_graph_from_txlist [⟨some "a", none, some "1"⟩] none 300
      = graph_builder.build_graph_from_txlist [] none 300 :=
  skip_record_missing_endpoint [] [] ⟨some "a", none, some "1"⟩ none 300 (Or.inr rfl)

theorem desktop_step_below (minv : ℚ) (G : desktop_app.Graph) (tx : Tx)
    (h : desktop_app.txAmt tx < minv) : desktop_app.step minv G tx = G := by
  unfold desktop_app.step
  by_cases hf : (pyFalsy tx.frm || pyFalsy tx.«to») = true
  · rw [if_pos hf]
  · rw [if_neg hf, if_pos h]

/-- Claim C8: with a minimum-amount threshold configured, every record whose
converted amount is strictly below the threshold is skipped at the data level:
it contributes to no node total and no edge total, and the aggregated graph
equals the one built with that record removed. -/
theorem threshold_filters_record (l1 l2 : List Tx) (tx : Tx) (minv : ℚ)
    (h : desktop_app.txAmt tx < minv) :
    desktop_app.build_graph_from_txlist (l1 ++ tx :: l2) minv
      = desktop_app.build_graph_from_txlist (l1 ++ l2) minv := by
  unfold desktop_app.build_graph_from_txlist
  rw [List.foldl_append, List.foldl_append, List.foldl_cons, desktop_step_below minv _ tx h]

theorem txAmt_half_lt_one :
    desktop_app.txAmt ⟨some "a", some "b", some "500000000000000000"⟩ < 1 := by
  unfold desktop_app.txAmt
  have h : pyIntOf (PyVal.vstr "500000000000000000") = some 500000000000000000 := by decide
  unfold wei_to_eth
  rw [h]
  norm_num

theorem threshold_filters_record_witness :
    desktop_app.build_graph_from_txlist
        [⟨some "a", some "b", some "500000000000000000"⟩] 1
      = desktop_app.build_graph_from_txlist [] 1 :=
  threshold_filters_record [] [] ⟨some "a", some "b", some "500000000000000000"⟩ 1
    txAmt_half_lt_one

/-- Claim C10: the trim lowercases the configured focus address before looking
it up, while node keys preserve the original casing of addresses (every node
key comes verbatim from a record's `from`/`to` field): whenever the lowercased
focus string is not itself a node key, `build_graph_from_txlist` returns the
full untrimmed aggregated graph, so trimming can only activate when the graph
contains a node keyed by the focus address's all-lowercase form. -/
theorem focus_lowercased_lookup :
    (∀ (l : List Tx) (f : String) (m : Int),
        GGraph.hasNode (graph_builder.aggregate l) (graph_builder.pyLower f) = false →
        graph_builder.build_graph_from_txlist l (some f) m = graph_builder.aggregate l)
    ∧ (∀ (l : List Tx) (a : String),
        GGraph.hasNode (graph_builder.aggregate l) a = true →
        ∃ tx ∈ l, validB tx = true ∧ (a = getS tx.frm ∨ a = getS tx.«to»)) := by
  constructor
  · intro l f m h
    unfold graph_builder.build_graph_from_txlist
    exact bound_eq_self_of _ _ _ (Or.inr (Or.inr h))
  · intro l a h
    rw [graph_builder.hasNode_aggregate] at h
    unfold graph_builder.appears at h
    rw [List.any_eq_true] at h
    obtain ⟨tx, htx, hp⟩ := h
    rw [Bool.and_eq_true] at hp
    refine ⟨tx, htx, hp.1, ?_⟩
    have hor := hp.2
    rw [Bool.or_eq_true] at hor
    rcases hor with hh | hh
    · exact Or.inl (of_decide_eq_true hh).symm
    · exact Or.inr (of_decide_eq_true hh).symm

theorem focus_lowercased_lookup_witness :
    graph_builder.build_graph_from_txlist [⟨some "A", some "b", some "1"⟩] (some "A") 0
      = graph_builder.aggregate [⟨some "A", some "b", some "1"⟩] :=
  focus_lowercased_lookup.1 [⟨some "A", some "b", some "1"⟩] "A" 0 (by decide)

/-! ### Claim C7: records with non-numeric value -/

/-- Counterexample to claim C7 as stated: a record with `from` and `to` present
but a non-numeric `value` ("abc") is NOT skipped — aggregation creates nodes
for both addresses and an edge between them. -/
theorem malformed_value_creates_nodes_and_edge :
    GGraph.hasNode (graph_builder.aggregate [⟨some "a", some "b", some "abc"⟩]) "a" = true
    ∧ GGraph.hasNode (graph_builder.aggregate [⟨some "a", some "b", some "abc"⟩]) "b" = true
    ∧ GGraph.hasEdge (graph_builder.aggregate [⟨some "a", some "b", some "abc"⟩])
        ("a", "b") = true := by
  refine ⟨?_, ?_, ?_⟩ <;> decide

/-- Claim C7 (amended): a record whose `from` and `to` are present but whose
`value` fails both numeric parses is not skipped; it is processed exactly as if
its value were "0": the converted amount is 0, the aggregated graph equals the
one for the same sequence with that record's value replaced by "0", and nodes
for both addresses and the edge between them exist afterwards — so no total
changes numerically, but node and edge entries are created. -/
theorem malformed_value_processed_as_zero (l1 l2 : List Tx) (tx : Tx) (s : String)
    (hval : tx.value = some s) (hi : pyParseInt s = none) (hf : pyParseFloat s = none)
    (hfrm : pyFalsy tx.frm = false) (hto : pyFalsy tx.«to» = false) :
    graph_builder.txAmt tx = 0
    ∧ graph_builder.aggregate (l1 ++ tx :: l2)
        = graph_builder.aggregate (l1 ++ (⟨tx.frm, tx.«to», some "0"⟩ : Tx) :: l2)
    ∧ GGraph.hasNode (graph_builder.aggregate (l1 ++ tx :: l2)) (getS tx.frm) = true
    ∧ GGraph.hasNode (graph_builder.aggregate (l1 ++ tx :: l2)) (getS tx.«to») = true
    ∧ GGraph.hasEdge (graph_builder.aggregate (l1 ++ tx :: l2))
        (getS tx.frm, getS tx.«to») = true := by
  have hamt : graph_builder.txAmt tx = 0 := by
    unfold graph_builder.txAmt
    rw [hval]
    unfold wei_to_eth
    simp only [pyIntOf, pyFloatOf]
    rw [hi, hf]
  have hamt0 : graph_builder.txAmt (⟨tx.frm, tx.«to», some "0"⟩ : Tx) = 0 := by
    unfold graph_builder.txAmt
    have h0 : pyIntOf (PyVal.vstr "0") = some 0 := by decide
    unfold wei_to_eth
    simp only
    rw [h0]
    norm_num
  have hvalid : validB tx = true := by
    unfold validB
    rw [hfrm, hto]
    rfl
  have hstep : ∀ G, graph_builder.step G tx
      = graph_builder.step G (⟨tx.frm, tx.«to», some "0"⟩ : Tx) := by
    intro G
    unfold graph_builder.step
    simp only [hamt, hamt0]
  refine ⟨hamt, ?_, ?_, ?_, ?_⟩
  · unfold graph_builder.aggregate
    rw [List.foldl_append, List.foldl_append, List.foldl_cons, List.foldl_cons, hstep]
  · rw [graph_builder.hasNode_aggregate]
    unfold graph_builder.appears
    rw [List.any_eq_true]
    exact ⟨tx, List.mem_append.mpr (Or.inr (List.mem_cons_self tx l2)), by simp [hvalid]⟩
  · rw [graph_builder.hasNode_aggregate]
    unfold graph_builder.appears
    rw [List.any_eq_true]
    exact ⟨tx, List.mem_append.mpr (Or.inr (List.mem_cons_self tx l2)), by simp [hvalid]⟩
  · rw [graph_builder.hasEdge_aggregate]
    unfold graph_builder.pairAppears
    rw [List.any_eq_true]
    exact ⟨tx, List.mem_append.mpr (Or.inr (List.mem_cons_self tx l2)), by simp [hvalid]⟩

theorem malformed_value_processed_as_zero_witness :
    graph_builder.txAmt ⟨some "a", some "b", some "abc"⟩ = 0 :=
  (malformed_value_processed_as_zero [] [] ⟨some "a", some "b", some "abc"⟩ "abc"
    rfl (by decide) (by decide) rfl rfl).1

/-! ### Claim C9: sign of the accumulated statistics -/

theorem assoc_lookup_of_mem_nodup {κ A : Type} [DecidableEq κ] (l : List (κ × A))
    (hnd : (l.map Prod.fst).Nodup) {p : κ × A} (hp : p ∈ l) :
    (l.find? (fun q => decide (q.1 = p.1))).map Prod.snd = some p.2 := by
  induction l with
  | nil => cases hp
  | cons q l ih =>
    rw [List.map_cons, List.nodup_cons] at hnd
    rcases List.mem_cons.mp hp with rfl | hpl
    · rw [List.find?_cons_of_pos _ (by simp)]
      rfl
    · by_cases hq : q.1 = p.1
      · exact absurd (hq ▸ List.mem_map.mpr ⟨p, hpl, rfl⟩) hnd.1
      · rw [List.find?_cons_of_neg _ (by simp [hq])]
        exact ih hnd.2 hpl

namespace graph_builder

theorem totalIn_nonneg {l : List Tx} (h : ∀ tx ∈ l, 0 ≤ txAmt tx) (a : String) :
    0 ≤ totalIn l a := by
  apply List.sum_nonneg
  intro x hx
  obtain ⟨tx, htx, rfl⟩ := List.mem_map.mp hx
  exact h tx (List.mem_filter.mp htx).1

theorem totalOut_nonneg {l : List Tx} (h : ∀ tx ∈ l, 0 ≤ txAmt tx) (a : String) :
    0 ≤ totalOut l a := by
  apply List.sum_nonneg
  intro x hx
  obtain ⟨tx, htx, rfl⟩ := List.mem_map.mp hx
  exact h tx (List.mem_filter.mp htx).1

theorem edgeTotal_nonneg {l : List Tx} (h : ∀ tx ∈ l, 0 ≤ txAmt tx) (k : String × String) :
    0 ≤ edgeTotal l k := by
  apply List.sum_nonneg
  intro x hx
  obtain ⟨tx, htx, rfl⟩ := List.mem_map.mp hx
  exact h tx (List.mem_filter.mp htx).1

theorem mem_nodes_bound {G : Graph} {fo : Option String} {m : Int} {p : String × NodeData}
    (hp : p ∈ (bound G fo m).nodes) : p ∈ G.nodes := by
  unfold bound at hp
  by_cases hc : (m < (G.nodes.length : Int) ∧ pyFalsy fo = false)
  · rw [if_pos hc] at hp
    dsimp only at hp
    by_cases hn : GGraph.hasNode G (pyLower (getS fo)) = true
    · rw [if_pos hn] at hp
      unfold subgraphCopy at hp
      exact (List.mem_filter.mp hp).1
    · rw [if_neg hn] at hp
      exact hp
  · rw [if_neg hc] at hp
    exact hp

theorem mem_edges_bound {G : Graph} {fo : Option String} {m : Int}
    {e : (String × String) × EdgeData} (hp : e ∈ (bound G fo m).edges) : e ∈ G.edges := by
  unfold bound at hp
  by_cases hc : (m < (G.nodes.length : Int) ∧ pyFalsy fo = false)
  · rw [if_pos hc] at hp
    dsimp only at hp
    by_cases hn : GGraph.hasNode G (pyLower (getS fo)) = true
    · rw [if_pos hn] at hp
      unfold subgraphCopy at hp
      exact (List.mem_filter.mp hp).1
    · rw [if_neg hn] at hp
      exact hp
  · rw [if_neg hc] at hp
    exact hp

end graph_builder

namespace GGraph

variable {N E : Type}

theorem mem_nodes_updateNode {G : GGraph N E} {a : String} {f : N → N} {p : String × N}
    (hp : p ∈ (updateNode G a f).nodes) : ∃ q ∈ G.nodes, p = q ∨ p = (q.1, f q.2) := by
  unfold updateNode at hp
  obtain ⟨q, hq, hpe⟩ := List.mem_map.mp hp
  refine ⟨q, hq, ?_⟩
  by_cases h : q.1 = a
  · right; rw [← hpe, if_pos h]
  · left; rw [← hpe, if_neg h]

theorem mem_nodes_ensureNode {G : GGraph N E} {a : String} {z : N} {p : String × N}
    (hp : p ∈ (ensureNode G a z).nodes) : p ∈ G.nodes ∨ p = (a, z) := by
  unfold ensureNode at hp
  split at hp
  · exact Or.inl hp
  · unfold addNode at hp
    rcases List.mem_append.mp hp with h | h
    · exact Or.inl h
    · exact Or.inr (by simpa using h)

theorem mem_edges_updateEdge {G : GGraph N E} {k : String × String} {f : E → E}
    {e : (String × String) × E} (hp : e ∈ (updateEdge G k f).edges) :
    ∃ q ∈ G.edges, e = q ∨ e = (q.1, f q.2) := by
  unfold updateEdge at hp
  obtain ⟨q, hq, hpe⟩ := List.mem_map.mp hp
  refine ⟨q, hq, ?_⟩
  by_cases h : q.1 = k
  · right; rw [← hpe, if_pos h]
  · left; rw [← hpe, if_neg h]

theorem mem_edges_addEdge {G : GGraph N E} {k : String × String} {d : E}
    {e : (String × String) × E} (hp : e ∈ (addEdge G k d).edges) :
    e ∈ G.edges ∨ e = (k, d) := by
  unfold addEdge at hp
  rcases List.mem_append.mp hp with h | h
  · exact Or.inl h
  · exact Or.inr (by simpa using h)

theorem edges_ensureNode_eq {G : GGraph N E} {a : String} {z : N} :
    (ensureNode G a z).edges = G.edges := edges_ensureNode G a z

end GGraph

theorem txAmt_desktop_eq (tx : Tx) : desktop_app.txAmt tx = graph_builder.txAmt tx := by
  unfold desktop_app.txAmt graph_builder.txAmt
  cases hv : tx.value with
  | none =>
    have h0 : pyIntOf (PyVal.vstr "0") = some 0 := by decide
    unfold wei_to_eth
    rw [h0]
    rfl
  | some s => rfl

theorem desktop_step_nodes_nonneg (minv : ℚ) (G : desktop_app.Graph) (tx : Tx)
    (hG : ∀ p ∈ G.nodes, 0 ≤ p.2.total_in ∧ 0 ≤ p.2.total_out)
    (hv : 0 ≤ desktop_app.txAmt tx) :
    ∀ p ∈ (desktop_app.step minv G tx).nodes, 0 ≤ p.2.total_in ∧ 0 ≤ p.2.total_out := by
  intro p hp
  unfold desktop_app.step at hp
  split at hp
  · exact hG p hp
  · split at hp
    · exact hG p hp
    · dsimp only at hp
      split at hp <;>
        [rw [GGraph.nodes_updateEdge, GGraph.nodes_updateEdge] at hp;
         rw [GGraph.nodes_addEdge] at hp] <;>
      · obtain ⟨q1, hq1, he1⟩ := GGraph.mem_nodes_updateNode hp
        obtain ⟨q2, hq2, he2⟩ := GGraph.mem_nodes_updateNode hq1
        obtain ⟨q3, hq3, he3⟩ := GGraph.mem_nodes_updateNode hq2
        obtain ⟨q4, hq4, he4⟩ := GGraph.mem_nodes_updateNode hq3
        have P4 : 0 ≤ q4.2.total_in ∧ 0 ≤ q4.2.total_out := by
          rcases GGraph.mem_nodes_ensureNode hq4 with hq5 | he5
          · rcases GGraph.mem_nodes_ensureNode hq5 with hq6 | he6
            · exact hG q4 hq6
            · rw [he6]; exact ⟨le_refl 0, le_refl 0⟩
          · rw [he5]; exact ⟨le_refl 0, le_refl 0⟩
        have P3 : 0 ≤ q3.2.total_in ∧ 0 ≤ q3.2.total_out := by
          rcases he4 with h | h
          · rw [h]; exact P4
          · rw [h]; exact ⟨P4.1, add_nonneg P4.2 hv⟩
        have P2 : 0 ≤ q2.2.total_in ∧ 0 ≤ q2.2.total_out := by
          rcases he3 with h | h
          · rw [h]; exact P3
          · rw [h]; exact P3
        have P1 : 0 ≤ q1.2.total_in ∧ 0 ≤ q1.2.total_out := by
          rcases he2 with h | h
          · rw [h]; exact P2
          · rw [h]; exact ⟨add_nonneg P2.1 hv, P2.2⟩
        rcases he1 with h | h
        · rw [h]; exact P1
        · rw [h]; exact P1

theorem desktop_step_edges_ok (minv : ℚ) (G : desktop_app.Graph) (tx : Tx)
    (hG : ∀ e ∈ G.edges, 0 ≤ e.2.total_value ∧ 1 ≤ e.2.tx_count)
    (hv : 0 ≤ desktop_app.txAmt tx) :
    ∀ e ∈ (desktop_app.step minv G tx).edges, 0 ≤ e.2.total_value ∧ 1 ≤ e.2.tx_count := by
  intro e hp
  unfold desktop_app.step at hp
  split at hp
  · exact hG e hp
  · split at hp
    · exact hG e hp
    · dsimp only at hp
      have hG6 : ∀ e ∈ (GGraph.updateNode
          (GGraph.updateNode
            (GGraph.updateNode
              (GGraph.updateNode
                (GGraph.ensureNode (GGraph.ensureNode G (getS tx.frm) ⟨0, 0, 0, 0⟩)
                  (getS tx.«to») ⟨0, 0, 0, 0⟩)
                (getS tx.frm)
                (fun d => { d with total_out := d.total_out + desktop_app.txAmt tx }))
              (getS tx.frm) (fun d => { d with tx_out := d.tx_out + 1 }))
            (getS tx.«to»)
            (fun d => { d with total_in := d.total_in + desktop_app.txAmt tx }))
          (getS tx.«to») (fun d => { d with tx_in := d.tx_in + 1 })).edges,
          0 ≤ e.2.total_value ∧ 1 ≤ e.2.tx_count := by
        intro e he
        rw [GGraph.edges_updateNode, GGraph.edges_updateNode, GGraph.edges_updateNode,
          GGraph.edges_updateNode, GGraph.edges_ensureNode_eq, GGraph.edges_ensureNode_eq] at he
        exact hG e he
      split at hp
      · obtain ⟨q1, hq1, he1⟩ := GGraph.mem_edges_updateEdge hp
        obtain ⟨q2, hq2, he2⟩ := GGraph.mem_edges_updateEdge hq1
        have P2 : 0 ≤ q2.2.total_value ∧ 1 ≤ q2.2.tx_count := hG6 q2 hq2
        have P1 : 0 ≤ q1.2.total_value ∧ 1 ≤ q1.2.tx_count := by
          rcases he2 with h | h
          · rw [h]; exact P2
          · rw [h]; exact ⟨add_nonneg P2.1 hv, P2.2⟩
        rcases he1 with h | h
        · rw [h]; exact P1
        · rw [h]; exact ⟨P1.1, le_trans P1.2 (Nat.le_succ _)⟩
      · rcases GGraph.mem_edges_addEdge hp with h | h
        · exact hG6 e h
        · rw [h]; exact ⟨hv, le_refl 1⟩

theorem desktop_step_edges_count (minv : ℚ) (G : desktop_app.Graph) (tx : Tx)
    (hG : ∀ e ∈ G.edges, 1 ≤ e.2.tx_count) :
    ∀ e ∈ (desktop_app.step minv G tx).edges, 1 ≤ e.2.tx_count := by
  intro e hp
  unfold desktop_app.step at hp
  split at hp
  · exact hG e hp
  · split at hp
    · exact hG e hp
    · dsimp only at hp
      have hG6 : ∀ e ∈ (GGraph.updateNode
          (GGraph.updateNode
            (GGraph.updateNode
              (GGraph.updateNode
                (GGraph.ensureNode (GGraph.ensureNode G (getS tx.frm) ⟨0, 0, 0, 0⟩)
                  (getS tx.«to») ⟨0, 0, 0, 0⟩)
                (getS tx.frm)
                (fun d => { d with total_out := d.total_out + desktop_app.txAmt tx }))
              (getS tx.frm) (fun d => { d with tx_out := d.tx_out + 1 }))
            (getS tx.«to»)
            (fun d => { d with total_in := d.total_in + desktop_app.txAmt tx }))
          (getS tx.«to») (fun d => { d with tx_in := d.tx_in + 1 })).edges,
          1 ≤ e.2.tx_count := by
        intro e he
        rw [GGraph.edges_updateNode, GGraph.edges_updateNode, GGraph.edges_updateNode,
          GGraph.edges_updateNode, GGraph.edges_ensureNode_eq, GGraph.edges_ensureNode_eq] at he
        exact hG e he
      split at hp
      · obtain ⟨q1, hq1, he1⟩ := GGraph.mem_edges_updateEdge hp
        obtain ⟨q2, hq2, he2⟩ := GGraph.mem_edges_updateEdge hq1
        have P2 : 1 ≤ q2.2.tx_count := hG6 q2 hq2
        have P1 : 1 ≤ q1.2.tx_count := by
          rcases he2 with h | h
          · rw [h]; exact P2
          · rw [h]; exact P2
        rcases he1 with h | h
        · rw [h]; exact P1
        · rw [h]; exact le_trans P1 (Nat.le_succ _)
      · rcases GGraph.mem_edges_addEdge hp with h | h
        · exact hG6 e h
        · rw [h]

/-- Counterexample to claim C9 as stated: on a record with a negative value
string, the converted amount is negative and the sender's accumulated
`total_out` is strictly negative — the statistics are NOT nonnegative
regardless of input contents. -/
theorem negative_value_negative_totals :
    ∃ d : graph_builder.NodeData,
      GGraph.lookupNode (graph_builder.aggregate
          [⟨some "a", some "b", some "-1000000000000000000"⟩]) "a" = some d
        ∧ d.total_out < 0 := by
  have hamt : graph_builder.txAmt ⟨some "a", some "b", some "-1000000000000000000"⟩ = -1 := by
    unfold graph_builder.txAmt
    have hp : pyIntOf (PyVal.vstr "-1000000000000000000")
        = some (-1000000000000000000) := by decide
    unfold wei_to_eth
    rw [hp]
    norm_num
  rw [graph_builder.lookupNode_aggregate]
  have happ : graph_builder.appears
      [⟨some "a", some "b", some "-1000000000000000000"⟩] "a" = true := by decide
  rw [if_pos happ]
  refine ⟨_, rfl, ?_⟩
  show graph_builder.totalOut [⟨some "a", some "b", some "-1000000000000000000"⟩] "a" < 0
  have hf : (validB (⟨some "a", some "b", some "-1000000000000000000"⟩ : Tx)
      && decide (getS (⟨some "a", some "b", some "-1000000000000000000"⟩ : Tx).frm = "a"))
      = true := by decide
  unfold graph_builder.totalOut
  simp only [List.filter_cons, hf, if_true, List.filter_nil, List.map_cons, List.map_nil,
    List.sum_cons, List.sum_nil, hamt]
  norm_num

/-- Claim C9 (amended): provided every record's converted amount is
nonnegative, every node of the built graph satisfies total_in ≥ 0 and
total_out ≥ 0 and every edge satisfies total_value ≥ 0; in the desktop
aggregator (which tracks counters) every edge satisfies tx_count ≥ 1
unconditionally, for arbitrary input contents. -/
theorem totals_nonneg_of_nonneg_amounts (l : List Tx) (fo : Option String) (m : Int)
    (minv : ℚ) :
    ((∀ tx ∈ l, 0 ≤ graph_builder.txAmt tx) →
      (∀ p ∈ (graph_builder.build_graph_from_txlist l fo m).nodes,
          0 ≤ p.2.total_in ∧ 0 ≤ p.2.total_out)
      ∧ (∀ e ∈ (graph_builder.build_graph_from_txlist l fo m).edges, 0 ≤ e.2.total_value)
      ∧ (∀ p ∈ (desktop_app.build_graph_from_txlist l minv).nodes,
          0 ≤ p.2.total_in ∧ 0 ≤ p.2.total_out)
      ∧ (∀ e ∈ (desktop_app.build_graph_from_txlist l minv).edges, 0 ≤ e.2.total_value))
    ∧ (∀ e ∈ (desktop_app.build_graph_from_txlist l minv).edges, 1 ≤ e.2.tx_count) := by
  constructor
  · intro h
    refine ⟨?_, ?_, ?_, ?_⟩
    · intro p hp
      have hp2 : p ∈ (graph_builder.aggregate l).nodes := graph_builder.mem_nodes_bound hp
      have hl : GGraph.lookupNode (graph_builder.aggregate l) p.1 = some p.2 :=
        assoc_lookup_of_mem_nodup _ (graph_builder.nodeKeys_aggregate_nodup l) hp2
      rw [graph_builder.lookupNode_aggregate] at hl
      by_cases happ : graph_builder.appears l p.1 = true
      · rw [if_pos happ] at hl
        have he := Option.some.inj hl
        rw [← he]
        exact ⟨graph_builder.totalIn_nonneg h _, graph_builder.totalOut_nonneg h _⟩
      · rw [if_neg happ] at hl
        cases hl
    · intro e he
      have he2 : e ∈ (graph_builder.aggregate l).edges := graph_builder.mem_edges_bound he
      have hl : GGraph.lookupEdge (graph_builder.aggregate l) e.1 = some e.2 :=
        assoc_lookup_of_mem_nodup _ (graph_builder.edgeKeys_aggregate_nodup l) he2
      rw [graph_builder.lookupEdge_aggregate] at hl
      by_cases happ : graph_builder.pairAppears l e.1 = true
      · rw [if_pos happ] at hl
        have hee := Option.some.inj hl
        rw [← hee]
        exact graph_builder.edgeTotal_nonneg h _
      · rw [if_neg happ] at hl
        cases hl
    · intro p hp
      unfold desktop_app.build_graph_from_txlist at hp
      have main : ∀ (lr : List Tx), (∀ tx ∈ lr, 0 ≤ graph_builder.txAmt tx) →
          ∀ (G : desktop_app.Graph), (∀ q ∈ G.nodes, 0 ≤ q.2.total_in ∧ 0 ≤ q.2.total_out) →
          ∀ q ∈ (lr.foldl (desktop_app.step minv) G).nodes,
            0 ≤ q.2.total_in ∧ 0 ≤ q.2.total_out := by
        intro lr
        induction lr with
        | nil => intro _ G hG q hq; exact hG q hq
        | cons tx lr ih =>
          intro hl G hG q hq
          rw [List.foldl_cons] at hq
          refine ih (fun t ht => hl t (List.mem_cons_of_mem _ ht)) _ ?_ q hq
          exact desktop_step_nodes_nonneg minv G tx hG
            (by rw [txAmt_desktop_eq]; exact hl tx (List.mem_cons_self _ _))
      exact main l h GGraph.empty (by intro q hq; cases hq) p hp
    · intro e he
      unfold desktop_app.build_graph_from_txlist at he
      have main : ∀ (lr : List Tx), (∀ tx ∈ lr, 0 ≤ graph_builder.txAmt tx) →
          ∀ (G : desktop_app.Graph), (∀ q ∈ G.edges, 0 ≤ q.2.total_value ∧ 1 ≤ q.2.tx_count) →
          ∀ q ∈ (lr.foldl (desktop_app.step minv) G).edges,
            0 ≤ q.2.total_value ∧ 1 ≤ q.2.tx_count := by
        intro lr
        induction lr with
        | nil => intro _ G hG q hq; exact hG q hq
        | cons tx lr ih =>
          intro hl G hG q hq
          rw [List.foldl_cons] at hq
          refine ih (fun t ht => hl t (List.mem_cons_of_mem _ ht)) _ ?_ q hq
          exact desktop_step_edges_ok minv G tx hG
            (by rw [txAmt_desktop_eq]; exact hl tx (List.mem_cons_self _ _))
      exact (main l h GGraph.empty (by intro q hq; cases hq) e he).1
  · intro e he
    unfold desktop_app.build_graph_from_txlist at he
    have main2 : ∀ (lr : List Tx) (G : desktop_app.Graph),
        (∀ q ∈ G.edges, 1 ≤ q.2.tx_count) →
        ∀ q ∈ (lr.foldl (desktop_app.step minv) G).edges, 1 ≤ q.2.tx_count := by
      intro lr
      induction lr with
      | nil => intro G hG q hq; exact hG q hq
      | cons tx lr ih =>
        intro G hG q hq
        rw [List.foldl_cons] at hq
        exact ih _ (desktop_step_edges_count minv G tx hG) q hq
    exact main2 l GGraph.empty (by intro q hq; cases hq) e he

theorem totals_nonneg_of_nonneg_amounts_witness :
    ((∀ p ∈ (graph_builder.build_graph_from_txlist
        [⟨some "a", some "b", some "abc"⟩] none 300).nodes,
        0 ≤ p.2.total_in ∧ 0 ≤ p.2.total_out)
      ∧ (∀ e ∈ (graph_builder.build_graph_from_txlist
          [⟨some "a", some "b", some "abc"⟩] none 300).edges, 0 ≤ e.2.total_value)
      ∧ (∀ p ∈ (desktop_app.build_graph_from_txlist
          [⟨some "a", some "b", some "abc"⟩] 0).nodes,
          0 ≤ p.2.total_in ∧ 0 ≤ p.2.total_out)
      ∧ (∀ e ∈ (desktop_app.build_graph_from_txlist
          [⟨some "a", some "b", some "abc"⟩] 0).edges, 0 ≤ e.2.total_value))
    ∧ (∀ e ∈ (desktop_app.build_graph_from_txlist
        [⟨some "a", some "b", some "-1000000000000000000"⟩] (-2)).edges,
        1 ≤ e.2.tx_count) :=
  ⟨(totals_nonneg_of_nonneg_amounts [⟨some "a", some "b", some "abc"⟩] none 300 0).1
      (by intro tx htx; rw [List.mem_singleton] at htx; subst htx; decide),
   (totals_nonneg_of_nonneg_amounts
      [⟨some "a", some "b", some "-1000000000000000000"⟩] none 300 (-2)).2⟩

/-! ### Claim C3: idempotence of the size-bound trim -/

theorem length_filter_key_mem_le {N : Type} (l : List (String × N))
    (hnd : (l.map Prod.fst).Nodup) (K : List String) :
    (l.filter (fun p => decide (p.1 ∈ K))).length ≤ K.length := by
  have hsub : List.Sublist ((l.filter (fun p => decide (p.1 ∈ K))).map Prod.fst)
      (l.map Prod.fst) :=
    (List.filter_sublist l).map Prod.fst
  have h1 : ((l.filter (fun p => decide (p.1 ∈ K))).map Prod.fst).Nodup :=
    List.Nodup.sublist hsub hnd
  have h2 : ∀ x ∈ (l.filter (fun p => decide (p.1 ∈ K))).map Prod.fst, x ∈ K := by
    intro x hx
    obtain ⟨p, hp, rfl⟩ := List.mem_map.mp hx
    exact of_decide_eq_true (List.mem_filter.mp hp).2
  calc (l.filter (fun p => decide (p.1 ∈ K))).length
      = ((l.filter (fun p => decide (p.1 ∈ K))).map Prod.fst).length :=
        (List.length_map _ _).symm
    _ ≤ K.length := (List.subperm_of_subset h1 h2).length_le

theorem bound_nodes_le_or_eq (G : graph_builder.Graph) (fo : Option String) (m : Int)
    (hG : (GGraph.nodeKeys G).Nodup) (hm : 1 ≤ m) :
    ((graph_builder.bound G fo m).nodes.length : Int) ≤ m
      ∨ graph_builder.bound G fo m = G := by
  unfold graph_builder.bound
  by_cases hc : (m < (G.nodes.length : Int) ∧ pyFalsy fo = false)
  · rw [if_pos hc]
    dsimp only
    by_cases hn : GGraph.hasNode G (graph_builder.pyLower (getS fo)) = true
    · rw [if_pos hn]
      left
      unfold graph_builder.subgraphCopy
      dsimp only
      have hK := length_filter_key_mem_le G.nodes hG
        (graph_builder.pyLower (getS fo) ::
          graph_builder.pySliceTo
            (graph_builder.predecessors G (graph_builder.pyLower (getS fo))
              ++ graph_builder.successors G (graph_builder.pyLower (getS fo))) (m - 1))
      rw [List.length_cons] at hK
      have hslice : (graph_builder.pySliceTo
          (graph_builder.predecessors G (graph_builder.pyLower (getS fo))
            ++ graph_builder.successors G (graph_builder.pyLower (getS fo))) (m - 1)).length
          ≤ (m - 1).toNat := by
        unfold graph_builder.pySliceTo
        rw [if_pos (by omega : (0 : Int) ≤ m - 1)]
        exact List.length_take_le _ _
      have ht : ((m - 1).toNat : Int) = m - 1 := Int.toNat_of_nonneg (by omega)
      omega
    · rw [if_neg hn]
      right
      rfl
  · rw [if_neg hc]
    right
    rfl

/-- Counterexample to claim C3 as stated: with budget `max_nodes = 0` the trim
is NOT idempotent — on a graph with focus `x` and three predecessors, one
application keeps 3 nodes, a second application keeps only 2. -/
theorem bound_not_idempotent_at_budget_zero :
    graph_builder.bound
        (graph_builder.bound
          (graph_builder.aggregate
            [⟨some "p", some "x", some "0"⟩, ⟨some "q", some "x", some "0"⟩,
             ⟨some "r", some "x", some "0"⟩]) (some "x") 0) (some "x") 0
      ≠ graph_builder.bound
          (graph_builder.aggregate
            [⟨some "p", some "x", some "0"⟩, ⟨some "q", some "x", some "0"⟩,
             ⟨some "r", some "x", some "0"⟩]) (some "x") 0 := by
  intro heq
  have hlen := congrArg (fun g : graph_builder.Graph => g.nodes.length) heq
  dsimp only at hlen
  have h2 : (graph_builder.bound
      (graph_builder.bound
        (graph_builder.aggregate
          [⟨some "p", some "x", some "0"⟩, ⟨some "q", some "x", some "0"⟩,
           ⟨some "r", some "x", some "0"⟩]) (some "x") 0) (some "x") 0).nodes.length = 2 := by
    decide
  have h3 : (graph_builder.bound
      (graph_builder.aggregate
        [⟨some "p", some "x", some "0"⟩, ⟨some "q", some "x", some "0"⟩,
         ⟨some "r", some "x", some "0"⟩]) (some "x") 0).nodes.length = 3 := by
    decide
  rw [h2, h3] at hlen
  exact absurd hlen (by decide)

/-- Claim C3 (amended): for every graph with duplicate-free node keys (as every
aggregated graph has) and every budget `max_nodes ≥ 1`, the size-bound trim is
idempotent: applying `bound` a second time with the same focus and budget
returns the same result, because the once-trimmed graph has at most `max_nodes`
nodes, so the identity condition fires on the second application. -/
theorem bound_idempotent_of_pos_budget (G : graph_builder.Graph) (fo : Option String)
    (m : Int) (hG : (GGraph.nodeKeys G).Nodup) (hm : 1 ≤ m) :
    graph_builder.bound (graph_builder.bound G fo m) fo m
      = graph_builder.bound G fo m := by
  rcases bound_nodes_le_or_eq G fo m hG hm with h | h
  · exact bound_eq_self_of _ fo m (Or.inl h)
  · rw [h]
    exact h

theorem bound_idempotent_of_pos_budget_witness :
    graph_builder.bound
        (graph_builder.bound
          (graph_builder.aggregate
            [⟨some "p", some "x", some "0"⟩, ⟨some "q", some "x", some "0"⟩,
             ⟨some "r", some "x", some "0"⟩]) (some "x") 2) (some "x") 2
      = graph_builder.bound
          (graph_builder.aggregate
            [⟨some "p", some "x", some "0"⟩, ⟨some "q", some "x", some "0"⟩,
             ⟨some "r", some "x", some "0"⟩]) (some "x") 2 :=
  bound_idempotent_of_pos_budget _ (some "x") 2 (by decide) (by decide)

/-! ### firstDedup lemmas -/

theorem firstDedup_nil {α : Type} [DecidableEq α] : firstDedup ([] : List α) = [] := by
  simp [firstDedup]

theorem firstDedup_cons {α : Type} [DecidableEq α] (a : α) (l : List α) :
    firstDedup (a :: l) = a :: firstDedup (l.filter (fun b => decide (b ≠ a))) := by
  simp only [firstDedup]

theorem firstDedup_filter_aux {α : Type} [DecidableEq α] (p : α → Bool) :
    ∀ (n : Nat) (l : List α), l.length ≤ n →
      firstDedup (l.filter p) = (firstDedup l).filter p := by
  intro n
  induction n with
  | zero =>
    intro l hl
    have hnil : l = [] := List.eq_nil_of_length_eq_zero (Nat.le_zero.mp hl)
    subst hnil
    simp [firstDedup_nil]
  | succ n ih =>
    intro l hl
    match l with
    | [] => simp [firstDedup_nil]
    | a :: l =>
      rw [List.length_cons] at hl
      have hlen : l.length ≤ n := by omega
      by_cases hpa : p a = true
      · rw [List.filter_cons_of_pos hpa, firstDedup_cons, firstDedup_cons,
          List.filter_cons_of_pos hpa]
        congr 1
        have hcomm : (l.filter p).filter (fun b => decide (b ≠ a))
            = (l.filter (fun b => decide (b ≠ a))).filter p := by
          rw [List.filter_filter, List.filter_filter]
          exact List.filter_congr (fun x _ => Bool.and_comm _ _)
        rw [hcomm]
        exact ih _ (le_trans (List.length_filter_le _ _) hlen)
      · have hpa2 : p a = false := by revert hpa; cases p a <;> simp
        rw [List.filter_cons_of_neg (by simp [hpa2]), firstDedup_cons,
          List.filter_cons_of_neg (by simp [hpa2])]
        rw [← ih (l.filter (fun b => decide (b ≠ a)))
          (le_trans (List.length_filter_le _ _) hlen)]
        congr 1
        rw [List.filter_filter]
        refine List.filter_congr ?_
        intro x _
        cases hpx : p x with
        | false => simp
        | true =>
          have hxa : x ≠ a := fun hh => by rw [hh, hpa2] at hpx; cases hpx
          simp [hxa]

theorem firstDedup_filter {α : Type} [DecidableEq α] (p : α → Bool) (l : List α) :
    firstDedup (l.filter p) = (firstDedup l).filter p :=
  firstDedup_filter_aux p l.length l (le_refl _)

theorem firstDedup_map_fst_aux {α β : Type} [DecidableEq α] [DecidableEq β] (v : β) :
    ∀ (n : Nat) (l : List (α × β)), l.length ≤ n → (∀ x ∈ l, x.2 = v) →
      (firstDedup l).map Prod.fst = firstDedup (l.map Prod.fst) := by
  intro n
  induction n with
  | zero =>
    intro l hl _
    have hnil : l = [] := List.eq_nil_of_length_eq_zero (Nat.le_zero.mp hl)
    subst hnil
    simp [firstDedup_nil]
  | succ n ih =>
    intro l hl hv
    match l with
    | [] => simp [firstDedup_nil]
    | q :: l =>
      rw [List.length_cons] at hl
      rw [firstDedup_cons, List.map_cons, List.map_cons, firstDedup_cons]
      congr 1
      have hfeq : l.filter (fun b => decide (b ≠ q))
          = l.filter (fun b => decide (b.1 ≠ q.1)) := by
        refine List.filter_congr ?_
        intro x hx
        have hx2 : x.2 = v := hv x (List.mem_cons_of_mem _ hx)
        have hq2 : q.2 = v := hv q (List.mem_cons_self _ _)
        rw [decide_eq_decide]
        constructor
        · intro hne hfst
          exact hne (Prod.ext hfst (hx2.trans hq2.symm))
        · intro hne hq
          exact hne (congrArg Prod.fst hq)
      rw [hfeq]
      rw [ih (l.filter (fun b => decide (b.1 ≠ q.1)))
        (le_trans (List.length_filter_le _ _) (by omega))
        (fun x hx => hv x (List.mem_cons_of_mem _ (List.mem_filter.mp hx).1))]
      congr 1
      rw [List.filter_map]
      rfl

theorem firstDedup_map_fst {α β : Type} [DecidableEq α] [DecidableEq β] (v : β)
    (l : List (α × β)) (hv : ∀ x ∈ l, x.2 = v) :
    (firstDedup l).map Prod.fst = firstDedup (l.map Prod.fst) :=
  firstDedup_map_fst_aux v l.length l (le_refl _) hv

/-! ### Edge-key order of the aggregation -/

namespace graph_builder

theorem edgeKeys_step_valid (G : Graph) (tx : Tx) (h : validB tx = true) :
    GGraph.edgeKeys (step G tx)
      = if (getS tx.frm, getS tx.«to») ∈ GGraph.edgeKeys G then GGraph.edgeKeys G
        else GGraph.edgeKeys G ++ [(getS tx.frm, getS tx.«to»)] := by
  have hcond : (pyFalsy tx.frm || pyFalsy tx.«to») = false := by
    unfold validB at h; simpa using h
  unfold step
  rw [if_neg (by simp [hcond])]
  dsimp only
  have hEq : GGraph.edgeKeys
      (GGraph.updateNode
        (GGraph.updateNode
          (GGraph.ensureNode (GGraph.ensureNode G (getS tx.frm) ⟨0, 0⟩) (getS tx.«to») ⟨0, 0⟩)
          (getS tx.frm) (fun d => { d with total_out := d.total_out + txAmt tx }))
        (getS tx.«to») (fun d => { d with total_in := d.total_in + txAmt tx }))
      = GGraph.edgeKeys G := by
    unfold GGraph.edgeKeys
    rw [GGraph.edges_updateNode, GGraph.edges_updateNode,
      GGraph.edges_ensureNode, GGraph.edges_ensureNode]
  split
  · next h4 =>
    rw [GGraph.edgeKeys_updateEdge, hEq]
    rw [GGraph.hasEdge_eq_mem_edgeKeys, hEq] at h4
    rw [if_pos (of_decide_eq_true h4)]
  · next h4 =>
    rw [GGraph.edgeKeys_addEdge, hEq]
    rw [GGraph.hasEdge_eq_mem_edgeKeys, hEq] at h4
    have hmem : (getS tx.frm, getS tx.«to») ∉ GGraph.edgeKeys G := by
      intro hh
      exact h4 (decide_eq_true hh)
    rw [if_neg hmem]

theorem edgeKeys_foldl (l : List Tx) : ∀ (G : Graph),
    GGraph.edgeKeys (l.foldl step G)
      = GGraph.edgeKeys G
        ++ firstDedup (((l.filter validB).map
              (fun tx => (getS tx.frm, getS tx.«to»))).filter
            (fun k => decide (k ∉ GGraph.edgeKeys G))) := by
  induction l with
  | nil =>
    intro G
    simp [firstDedup_nil]
  | cons tx l ih =>
    intro G
    rw [List.foldl_cons]
    by_cases hv : validB tx = true
    · rw [ih (step G tx), edgeKeys_step_valid G tx hv,
        List.filter_cons_of_pos hv, List.map_cons]
      by_cases hmem : (getS tx.frm, getS tx.«to») ∈ GGraph.edgeKeys G
      · rw [if_pos hmem, List.filter_cons_of_neg (by simp [hmem])]
      · rw [if_neg hmem, List.filter_cons_of_pos (by simp [hmem]), firstDedup_cons,
          List.append_assoc, List.singleton_append]
        congr 3
        rw [List.filter_filter]
        refine List.filter_congr ?_
        intro x _
        rw [Bool.eq_iff_iff]
        simp [List.mem_append, not_or, and_comm]
    · have hv2 : validB tx = false := by revert hv; cases validB tx <;> simp
      rw [step_invalid G tx hv2, List.filter_cons_of_neg (by simp [hv2]), ih G]

theorem edgeKeys_aggregate (l : List Tx) :
    GGraph.edgeKeys (aggregate l)
      = firstDedup ((l.filter validB).map (fun tx => (getS tx.frm, getS tx.«to»))) := by
  unfold aggregate
  rw [edgeKeys_foldl]
  have hempty : GGraph.edgeKeys (GGraph.empty : Graph) = [] := rfl
  rw [hempty, List.nil_append]
  congr 1
  refine List.filter_eq_self.mpr ?_
  intro x _
  simp

theorem predecessors_aggregate (l : List Tx) (v : String) :
    predecessors (aggregate l) v = specPreds l v := by
  have hpred : predecessors (aggregate l) v
      = ((GGraph.edgeKeys (aggregate l)).filter
          (fun k => decide (k.2 = v))).map Prod.fst := by
    unfold predecessors GGraph.edgeKeys
    rw [List.filter_map, List.map_map]
    rfl
  rw [hpred, edgeKeys_aggregate, ← firstDedup_filter]
  rw [firstDedup_map_fst v _ (fun x hx => of_decide_eq_true (List.mem_filter.mp hx).2)]
  unfold specPreds
  congr 1
  rw [List.filter_map, List.map_map]
  rfl

end graph_builder

theorem firstDedup_map_snd_aux {α β : Type} [DecidableEq α] [DecidableEq β] (v : α) :
    ∀ (n : Nat) (l : List (α × β)), l.length ≤ n → (∀ x ∈ l, x.1 = v) →
      (firstDedup l).map Prod.snd = firstDedup (l.map Prod.snd) := by
  intro n
  induction n with
  | zero =>
    intro l hl _
    have hnil : l = [] := List.eq_nil_of_length_eq_zero (Nat.le_zero.mp hl)
    subst hnil
    simp [firstDedup_nil]
  | succ n ih =>
    intro l hl hv
    match l with
    | [] => simp [firstDedup_nil]
    | q :: l =>
      rw [List.length_cons] at hl
      rw [firstDedup_cons, List.map_cons, List.map_cons, firstDedup_cons]
      congr 1
      have hfeq : l.filter (fun b => decide (b ≠ q))
          = l.filter (fun b => decide (b.2 ≠ q.2)) := by
        refine List.filter_congr ?_
        intro x hx
        have hx1 : x.1 = v := hv x (List.mem_cons_of_mem _ hx)
        have hq1 : q.1 = v := hv q (List.mem_cons_self _ _)
        rw [decide_eq_decide]
        constructor
        · intro hne hsnd
          exact hne (Prod.ext (hx1.trans hq1.symm) hsnd)
        · intro hne hq
          exact hne (congrArg Prod.snd hq)
      rw [hfeq]
      rw [ih (l.filter (fun b => decide (b.2 ≠ q.2)))
        (le_trans (List.length_filter_le _ _) (by omega))
        (fun x hx => hv x (List.mem_cons_of_mem _ (List.mem_filter.mp hx).1))]
      congr 1
      rw [List.filter_map]
      rfl

theorem firstDedup_map_snd {α β : Type} [DecidableEq α] [DecidableEq β] (v : α)
    (l : List (α × β)) (hv : ∀ x ∈ l, x.1 = v) :
    (firstDedup l).map Prod.snd = firstDedup (l.map Prod.snd) :=
  firstDedup_map_snd_aux v l.length l (le_refl _) hv

namespace graph_builder

theorem successors_aggregate (l : List Tx) (v : String) :
    successors (aggregate l) v = specSuccs l v := by
  have hsucc : successors (aggregate l) v
      = ((GGraph.edgeKeys (aggregate l)).filter
          (fun k => decide (k.1 = v))).map Prod.snd := by
    unfold successors GGraph.edgeKeys
    rw [List.filter_map, List.map_map]
    rfl
  rw [hsucc, edgeKeys_aggregate, ← firstDedup_filter]
  rw [firstDedup_map_snd v _ (fun x hx => of_decide_eq_true (List.mem_filter.mp hx).2)]
  unfold specSuccs
  congr 1
  rw [List.filter_map, List.map_map]
  rfl

end graph_builder

/-! ### Claim C1: the active trim returns the induced subgraph of the keep set -/

/-- Counterexample to claim C1 as stated: with budget `max_nodes = 0` the trim
activates (over budget, focus present) but the result is NOT the induced
subgraph of `{focus}` plus the first `max_nodes - 1 = -1` (i.e. zero) stable
neighbors: the Python slice `neighbors[:-1]` keeps all but the last neighbor
instead. -/
theorem trim_spec_fails_at_budget_zero :
    (0 : Int) < ((graph_builder.aggregate
        [⟨some "p", some "x", some "0"⟩, ⟨some "q", some "x", some "0"⟩]).nodes.length : Int)
    ∧ GGraph.hasNode (graph_builder.aggregate
        [⟨some "p", some "x", some "0"⟩, ⟨some "q", some "x", some "0"⟩])
        (graph_builder.pyLower "x") = true
    ∧ graph_builder.build_graph_from_txlist
        [⟨some "p", some "x", some "0"⟩, ⟨some "q", some "x", some "0"⟩] (some "x") 0
      ≠ graph_builder.inducedSubgraph
          (graph_builder.aggregate
            [⟨some "p", some "x", some "0"⟩, ⟨some "q", some "x", some "0"⟩])
          (graph_builder.specKeep
            [⟨some "p", some "x", some "0"⟩, ⟨some "q", some "x", some "0"⟩] "x" 0) := by
  refine ⟨by decide, by decide, ?_⟩
  intro heq
  have hlen := congrArg (fun g : graph_builder.Graph => g.nodes.length) heq
  dsimp only at hlen
  have h2 : (graph_builder.build_graph_from_txlist
      [⟨some "p", some "x", some "0"⟩, ⟨some "q", some "x", some "0"⟩]
      (some "x") 0).nodes.length = 2 := by decide
  have h1 : (graph_builder.inducedSubgraph
      (graph_builder.aggregate
        [⟨some "p", some "x", some "0"⟩, ⟨some "q", some "x", some "0"⟩])
      (graph_builder.specKeep
        [⟨some "p", some "x", some "0"⟩, ⟨some "q", some "x", some "0"⟩]
        "x" 0)).nodes.length = 1 := by decide
  rw [h2, h1] at hlen
  exact absurd hlen (by decide)

/-- Claim C1 (amended): whenever the size-bound trim activates — the aggregated
graph has more than `max_nodes ≥ 1` nodes, a nonempty focus is given, and the
(lowercased) focus is present as a node — the result is the induced subgraph of
the keep set consisting of the focus plus the first `max_nodes - 1` entries of
the stable neighbor list: predecessors of the focus in first-encounter order
followed by successors in first-encounter order; every kept node and edge
retains its original attribute values, with no totals recomputed. -/
theorem trim_active_eq_induced_subgraph (l : List Tx) (f : String) (m : Int)
    (hm : 1 ≤ m) (hf : f ≠ "")
    (hpres : GGraph.hasNode (graph_builder.aggregate l) (graph_builder.pyLower f) = true)
    (hover : m < ((graph_builder.aggregate l).nodes.length : Int)) :
    graph_builder.build_graph_from_txlist l (some f) m
      = graph_builder.inducedSubgraph (graph_builder.aggregate l)
          (graph_builder.specKeep l f m) := by
  unfold graph_builder.build_graph_from_txlist graph_builder.bound
  rw [if_pos (⟨hover, by simp [pyFalsy, hf]⟩ :
    m < ((graph_builder.aggregate l).nodes.length : Int) ∧ pyFalsy (some f) = false)]
  dsimp only
  rw [show getS (some f) = f from rfl]
  rw [if_pos hpres]
  have hslice : graph_builder.pySliceTo
      (graph_builder.predecessors (graph_builder.aggregate l) (graph_builder.pyLower f)
        ++ graph_builder.successors (graph_builder.aggregate l) (graph_builder.pyLower f))
      (m - 1)
      = (graph_builder.specPreds l (graph_builder.pyLower f)
          ++ graph_builder.specSuccs l (graph_builder.pyLower f)).take (m - 1).toNat := by
    unfold graph_builder.pySliceTo
    rw [if_pos (by omega : (0 : Int) ≤ m - 1)]
    rw [graph_builder.predecessors_aggregate, graph_builder.successors_aggregate]
  rw [hslice]
  rfl

theorem trim_active_eq_induced_subgraph_witness :
    graph_builder.build_graph_from_txlist
        [⟨some "p", some "x", some "0"⟩, ⟨some "q", some "x", some "0"⟩,
         ⟨some "x", some "s", some "0"⟩] (some "x") 2
      = graph_builder.inducedSubgraph
          (graph_builder.aggregate
            [⟨some "p", some "x", some "0"⟩, ⟨some "q", some "x", some "0"⟩,
             ⟨some "x", some "s", some "0"⟩])
          (graph_builder.specKeep
            [⟨some "p", some "x", some "0"⟩, ⟨some "q", some "x", some "0"⟩,
             ⟨some "x", some "s", some "0"⟩] "x" 2) :=
  trim_active_eq_induced_subgraph _ "x" 2 (by decide) (by decide) (by decide) (by decide)
